import Mathlib

/-!
Receipt-Processor: the points calculator of `main.go`.

A shallow embedding of `calculatePoints` and of the Go library functions it
calls, with theorems about the score.

Modelling conventions.

* A Go `string` decoded from JSON is valid UTF-8, so it is a Lean `String`;
  `len` counts its UTF-8 bytes, and the library parsers (`strconv.ParseFloat`,
  `time.Parse`) read those bytes (`List Nat`), as the Go code does.
* The library functions are written after the Go standard library: `readFloat`,
  `special` and `underscoreOK` of `strconv`, `getnum`, `daysIn` and the layout
  loop of `time.Parse` for the two layouts the program uses, `strings.TrimSpace`
  with `unicode.IsSpace`, `math.Floor`, `math.Ceil` and `math.Mod`.
* A `float64` is modelled exactly: a finite value is a sign and a natural
  number of units of `2^-1074` (every finite double is such a multiple).
  `ParseFloat` and `*` round the exact result to the nearest double, ties to
  even, as IEEE 754 and `strconv` do; `Floor`, `Ceil` and `Mod` are exact.
* Go `int` is the 64-bit two's complement integer of the usual platforms:
  every `+=` wraps into `[-2^63, 2^63)`.
* The result of converting an out-of-range `float64` to `int` is
  implementation-dependent in Go; it is a parameter (`Arch`).
* A `time.Time` is reduced to the calendar fields the program reads; the zero
  `time.Time`, which `time.Parse` returns with an error, is January 1 of year 1.
-/

namespace ReceiptProcessor

/-! ## Strings -/

/-- The UTF-8 encoding of one code point, as a list of byte values. -/
def utf8Bytes (c : Char) : List Nat :=
  let n := c.toNat
  if n < 128 then [n]
  else if n < 2048 then [192 + n / 64, 128 + n % 64]
  else if n < 65536 then [224 + n / 4096, 128 + n / 64 % 64, 128 + n % 64]
  else [240 + n / 262144, 128 + n / 4096 % 64, 128 + n / 64 % 64, 128 + n % 64]

/-- The bytes of a Go string. -/
def bytesOfChars : List Char → List Nat
  | [] => []
  | c :: cs => utf8Bytes c ++ bytesOfChars cs

/-- The bytes of a Go string (a Lean string is a sequence of code points). -/
def bytes (s : String) : List Nat := bytesOfChars s.data

/-- Go `len(s)` for a string: the number of bytes. -/
def len (s : String) : Nat := (bytes s).length

/-- Go `unicode.IsSpace`. -/
def isSpace (c : Char) : Bool :=
  let n := c.toNat
  n = 9 || n = 10 || n = 11 || n = 12 || n = 13 || n = 32 || n = 133 || n = 160 ||
  n = 5760 || (8192 ≤ n && n ≤ 8202) || n = 8232 || n = 8233 || n = 8239 ||
  n = 8287 || n = 12288

/-- Go `strings.TrimSpace`, on the code points of the string. -/
def trimSpaceChars (cs : List Char) : List Char :=
  ((cs.dropWhile isSpace).reverse.dropWhile isSpace).reverse

/-- Go `strings.TrimSpace`. -/
def TrimSpace (s : String) : String := String.mk (trimSpaceChars s.data)

/-! ## Machine integers -/

/-- Reduction of an integer to the 64-bit two's complement range. -/
def wrap64 (x : Int) : Int := (x + 2 ^ 63) % 2 ^ 64 - 2 ^ 63

/-- Go `a + b` on `int`. -/
def addInt (a b : Int) : Int := wrap64 (a + b)

/-! ## float64 -/

/-- A `float64` value. `fin neg k` is `(-1)^neg * k * 2^-1074`. -/
inductive F64 where
  | nan : F64
  | inf (neg : Bool) : F64
  | fin (neg : Bool) (k : Nat) : F64
deriving DecidableEq, Repr

/-- The number of units in `1.0`. -/
def unit : Nat := 2 ^ 1074

/-- The number of units in `0.25`. -/
def quarter : Nat := 2 ^ 1072

/-- The largest finite double, in units. -/
def maxUnits : Nat := (2 ^ 53 - 1) * 2 ^ 2045

/-- The nearest integer to `p / q`, ties to even. -/
def rne (p q : Nat) : Nat :=
  let n := p / q
  let r := p % q
  if 2 * r < q then n
  else if q < 2 * r then n + 1
  else if n % 2 = 0 then n else n + 1

/-- The number of halvings that bring `n` below `2^53` (`fuel` bounds the search). -/
def excess : Nat → Nat → Nat
  | 0, _ => 0
  | fuel + 1, n => if n < 2 ^ 53 then 0 else excess fuel (n / 2) + 1

/-- The double nearest to `p / q` (ties to even, unbounded exponent), in units:
the spacing of the doubles around `p / q` is `2^s` units. -/
def roundUnits (p q : Nat) : Nat :=
  let n := p * unit / q
  let s := excess n n
  rne (p * unit) (q * 2 ^ s) * 2 ^ s

/-- The double nearest to `± p / q`; overflow gives an infinity. -/
def roundF64 (neg : Bool) (p q : Nat) : F64 :=
  let k := roundUnits p q
  if maxUnits < k then F64.inf neg else F64.fin neg k

/-- Go `x == y` on `float64`. -/
def F64.eq : F64 → F64 → Bool
  | F64.inf a, F64.inf b => a == b
  | F64.fin a k, F64.fin b j => (k == 0 && j == 0) || (a == b && k == j)
  | _, _ => false

/-- Go `x * y` on `float64`. -/
def F64.mul : F64 → F64 → F64
  | F64.nan, _ => F64.nan
  | _, F64.nan => F64.nan
  | F64.inf a, F64.inf b => F64.inf (a != b)
  | F64.inf a, F64.fin b k => if k = 0 then F64.nan else F64.inf (a != b)
  | F64.fin a k, F64.inf b => if k = 0 then F64.nan else F64.inf (a != b)
  | F64.fin a k, F64.fin b j => roundF64 (a != b) (k * j) (unit * unit)

/-- Go `math.Floor`. -/
def Floor : F64 → F64
  | F64.fin false k => F64.fin false (k / unit * unit)
  | F64.fin true k => F64.fin true ((k + (unit - 1)) / unit * unit)
  | x => x

/-- Go `math.Ceil`. -/
def Ceil : F64 → F64
  | F64.fin false k => F64.fin false ((k + (unit - 1)) / unit * unit)
  | F64.fin true k => F64.fin true (k / unit * unit)
  | x => x

/-- Go `math.Mod`. -/
def Mod : F64 → F64 → F64
  | F64.nan, _ => F64.nan
  | _, F64.nan => F64.nan
  | F64.inf _, _ => F64.nan
  | F64.fin a k, F64.inf _ => F64.fin a k
  | F64.fin a k, F64.fin _ j => if j = 0 then F64.nan else F64.fin a (k % j)

/-- What `int(x)` yields where Go leaves it to the implementation. -/
structure Arch where
  convOutOfRange : F64 → Int

/-- The amd64 behaviour: every out-of-range conversion gives `-2^63`. -/
def amd64 : Arch := ⟨fun _ => -(2 ^ 63)⟩

/-- Go `int(x)` for a `float64`: truncation toward zero when it fits. -/
def toInt (arch : Arch) : F64 → Int
  | F64.fin false k =>
      if k / unit < 2 ^ 63 then (k / unit : Nat) else wrap64 (arch.convOutOfRange (F64.fin false k))
  | F64.fin true k =>
      if k / unit ≤ 2 ^ 63 then -((k / unit : Nat) : Int)
      else wrap64 (arch.convOutOfRange (F64.fin true k))
  | x => wrap64 (arch.convOutOfRange x)

/-- The constant `0.2` as a `float64`. -/
def c0_2 : F64 := roundF64 false 2 10

/-- The constant `0.25` as a `float64`. -/
def c0_25 : F64 := roundF64 false 25 100

/-- The constant `0` as a `float64`. -/
def c0 : F64 := F64.fin false 0

/-! ## strconv.ParseFloat -/

/-- The two errors of `strconv`. -/
inductive NumError where
  | ErrSyntax : NumError
  | ErrRange : NumError
deriving DecidableEq, Repr

/-- A decimal digit byte. -/
def isDigitByte (c : Nat) : Bool := 48 ≤ c && c ≤ 57

/-- Go `lower(c)` of `strconv`: `c | ('x' - 'X')`. -/
def lower (c : Nat) : Nat := c ||| 32

/-- A hexadecimal letter `a..f` or `A..F`, as `strconv` tests it. -/
def isHexLetter (c : Nat) : Bool := 97 ≤ lower c && lower c ≤ 102

/-- Go `commonPrefixLenIgnoreCase(s, prefix)`; `prefix` is lower case. -/
def commonPrefixLenIgnoreCase : List Nat → List Nat → Nat
  | c :: s, p :: pre =>
      if (if 65 ≤ c ∧ c ≤ 90 then c + 32 else c) = p then
        commonPrefixLenIgnoreCase s pre + 1
      else 0
  | _, _ => 0

/-- The bytes of "infinity". -/
def infinityBytes : List Nat := [105, 110, 102, 105, 110, 105, 116, 121]

/-- The bytes of "nan". -/
def nanBytes : List Nat := [110, 97, 110]

/-- Go `special(s)`: an infinity or a NaN at the start of `s`, and the number
of bytes it takes. -/
def special (s : List Nat) : Option (F64 × Nat) :=
  match s with
  | [] => none
  | c :: rest =>
    if c = 43 ∨ c = 45 then
      let n := commonPrefixLenIgnoreCase rest infinityBytes
      let n := if 3 < n ∧ n < 8 then 3 else n
      if n = 3 ∨ n = 8 then some (F64.inf (c = 45), 1 + n) else none
    else if c = 105 ∨ c = 73 then
      let n := commonPrefixLenIgnoreCase s infinityBytes
      let n := if 3 < n ∧ n < 8 then 3 else n
      if n = 3 ∨ n = 8 then some (F64.inf false, n) else none
    else if c = 110 ∨ c = 78 then
      if commonPrefixLenIgnoreCase s nanBytes = 3 then some (F64.nan, 3) else none
    else none

/-- The state of the digit loop of `readFloat`: the mantissa read so far (all
digits, exactly), the number of digits after the point, and the flags. -/
structure Digits where
  mant : Nat
  frac : Nat
  sawdot : Bool
  sawdigits : Bool
  underscores : Bool
deriving DecidableEq, Repr

/-- The digit loop of `readFloat`: the state at the first byte that is not part
of the mantissa, and the bytes from there on. -/
def readDigits (hex : Bool) : List Nat → Digits → Digits × List Nat
  | [], st => (st, [])
  | c :: cs, st =>
    if c = 95 then readDigits hex cs { st with underscores := true }
    else if c = 46 then
      if st.sawdot then (st, c :: cs) else readDigits hex cs { st with sawdot := true }
    else if isDigitByte c then
      readDigits hex cs
        { st with
          sawdigits := true
          mant := st.mant * (if hex then 16 else 10) + (c - 48)
          frac := if st.sawdot then st.frac + 1 else st.frac }
    else if hex && isHexLetter c then
      readDigits hex cs
        { st with
          sawdigits := true
          mant := st.mant * 16 + (lower c - 97 + 10)
          frac := if st.sawdot then st.frac + 1 else st.frac }
    else (st, c :: cs)

/-- The exponent digit loop of `readFloat`: the exponent (no longer growing
once it has reached 10000), whether an underscore was seen, and the rest. -/
def readExpDigits : List Nat → Nat → Bool → Nat × Bool × List Nat
  | [], e, us => (e, us, [])
  | c :: cs, e, us =>
    if c = 95 then readExpDigits cs e true
    else if isDigitByte c then
      readExpDigits cs (if e < 10000 then e * 10 + (c - 48) else e) us
    else (e, us, c :: cs)

/-- What `underscoreOK` saw last. -/
inductive Saw where
  | start : Saw
  | digit : Saw
  | underscore : Saw
  | other : Saw
deriving DecidableEq, Repr

/-- The loop of Go `underscoreOK`. -/
def underscoreOKLoop (hex : Bool) : List Nat → Saw → Bool
  | [], saw => saw ≠ Saw.underscore
  | c :: cs, saw =>
    if isDigitByte c || (hex && isHexLetter c) then underscoreOKLoop hex cs Saw.digit
    else if c = 95 then
      if saw ≠ Saw.digit then false else underscoreOKLoop hex cs Saw.underscore
    else if saw = Saw.underscore then false
    else underscoreOKLoop hex cs Saw.other

/-- Go `underscoreOK`: underscores only between digits or after a base prefix. -/
def underscoreOK (s : List Nat) : Bool :=
  let s := match s with
    | c :: r => if c = 45 ∨ c = 43 then r else s
    | [] => s
  match s with
  | a :: b :: r =>
    if a = 48 ∧ (lower b = 98 ∨ lower b = 111 ∨ lower b = 120) then
      underscoreOKLoop (lower b = 120) r Saw.digit
    else underscoreOKLoop false s Saw.start
  | _ => underscoreOKLoop false s Saw.start

/-- The value `± mant * base^e` rounded to a `float64`, with the range error
of `strconv` when it overflows. -/
def floatOfParts (neg hex : Bool) (mant : Nat) (e : Int) : F64 × Option NumError :=
  let b : Nat := if hex then 2 else 10
  let v := if 0 ≤ e then roundF64 neg (mant * b ^ e.toNat) 1
           else roundF64 neg mant (b ^ (-e).toNat)
  match v with
  | F64.fin s k => (F64.fin s k, none)
  | w => (w, some NumError.ErrRange)

/-- What `ParseFloat` returns on a syntax error. -/
def syntaxError : F64 × Option NumError := (F64.fin false 0, some NumError.ErrSyntax)

/-- The end of `readFloat` and of `ParseFloat`: the whole string must have
been read and its underscores must be well placed. -/
def finishFloat (s : List Nat) (neg hex : Bool) (d : Digits) (e : Int) (us : Bool)
    (rest : List Nat) : F64 × Option NumError :=
  if rest ≠ [] then syntaxError
  else if us && !underscoreOK s then syntaxError
  else floatOfParts neg hex d.mant (e - (if hex then 4 else 1) * d.frac)

/-- The exponent part of `readFloat` (`rest` starts where the mantissa ended),
then the conversion. -/
def readExponent (s : List Nat) (neg hex : Bool) (d : Digits) (rest : List Nat) :
    F64 × Option NumError :=
  match rest with
  | [] => if hex then syntaxError else finishFloat s neg hex d 0 d.underscores []
  | x :: r1 =>
    if lower x = (if hex then 112 else 101) then
      match r1 with
      | [] => syntaxError
      | y :: r2 =>
        match (if y = 43 ∨ y = 45 then r2 else r1) with
        | [] => syntaxError
        | z :: r4 =>
          if !isDigitByte z then syntaxError
          else
            finishFloat s neg hex d
              ((if y = 45 then -1 else 1) * (readExpDigits (z :: r4) 0 d.underscores).1)
              (readExpDigits (z :: r4) 0 d.underscores).2.1
              (readExpDigits (z :: r4) 0 d.underscores).2.2
    else if hex then syntaxError
    else finishFloat s neg hex d 0 d.underscores rest

/-- The base prefix test of `readFloat`: "0x" or "0X" with a byte after it. -/
def hasHexPrefix (body : List Nat) : Bool :=
  match body with
  | a :: b :: _ :: _ => a = 48 ∧ lower b = 120
  | _ => false

/-- After the digit loop of `readFloat`: there must have been a digit. -/
def afterDigits (s : List Nat) (neg hex : Bool) (dr : Digits × List Nat) :
    F64 × Option NumError :=
  if !dr.1.sawdigits then syntaxError else readExponent s neg hex dr.1 dr.2

/-- The mantissa part of `readFloat` (`body` is the string after its sign),
then the rest. -/
def readMantissa (s : List Nat) (neg : Bool) (body : List Nat) : F64 × Option NumError :=
  afterDigits s neg (hasHexPrefix body)
    (readDigits (hasHexPrefix body) (if hasHexPrefix body then body.drop 2 else body)
      ⟨0, 0, false, false, false⟩)

/-- Go `readFloat` followed by the conversion, on the bytes of the string. -/
def readFloat (s : List Nat) : F64 × Option NumError :=
  match s with
  | [] => syntaxError
  | c :: r => readMantissa s (c = 45) (if c = 43 ∨ c = 45 then r else s)

/-- Go `strconv.ParseFloat(s, 64)`: the value and the error. -/
def ParseFloat (str : String) : F64 × Option NumError :=
  let s := bytes str
  match special s with
  | some (v, n) => if n = s.length then (v, none) else syntaxError
  | none => readFloat s

/-! ## time.Parse -/

/-- The fields of a `time.Time` that the program reads (always UTC here). -/
structure Time where
  year : Nat
  month : Nat
  day : Nat
  hour : Nat
  minute : Nat
deriving DecidableEq, Repr

/-- The zero `time.Time`: January 1, year 1, 00:00 UTC. -/
def Time.zero : Time := ⟨1, 1, 1, 0, 0⟩

/-- Go `t.Day()`. -/
def Time.Day (t : Time) : Nat := t.day

/-- Go `t.Hour()`. -/
def Time.Hour (t : Time) : Nat := t.hour

/-- Go `getnum(s, fixed)`: a one- or two-digit number; two digits when `fixed`. -/
def getnum (s : List Nat) (fixed : Bool) : Option (Nat × List Nat) :=
  match s with
  | [] => none
  | a :: rest =>
    if !isDigitByte a then none
    else
      match rest with
      | [] => if fixed then none else some (a - 48, rest)
      | b :: rest2 =>
        if !isDigitByte b then (if fixed then none else some (a - 48, rest))
        else some ((a - 48) * 10 + (b - 48), rest2)

/-- Go `isLeap`. -/
def isLeap (year : Nat) : Bool := year % 4 = 0 && (year % 100 ≠ 0 || year % 400 = 0)

/-- Go `daysIn`. -/
def daysIn (m year : Nat) : Nat :=
  if m = 2 ∧ isLeap year then 29
  else [0, 31, 59, 90, 120, 151, 181, 212, 243, 273, 304, 334, 365].getD m 0 -
    [0, 31, 59, 90, 120, 151, 181, 212, 243, 273, 304, 334, 365].getD (m - 1) 0

/-- Go `time.Parse` for the layout "2006-01-02", on the bytes of the value:
`none` stands for a parse error. -/
def parseDateBytes (value : List Nat) : Option Time :=
  match value with
  | y0 :: y1 :: y2 :: y3 :: v1 =>
    if !(isDigitByte y0 && isDigitByte y1 && isDigitByte y2 && isDigitByte y3) then none
    else
      let year := (y0 - 48) * 1000 + (y1 - 48) * 100 + (y2 - 48) * 10 + (y3 - 48)
      match v1 with
      | [] => none
      | h1 :: v2 =>
        if h1 ≠ 45 then none
        else
          match getnum v2 true with
          | none => none
          | some (month, v3) =>
            if month = 0 ∨ 12 < month then none
            else
              match v3 with
              | [] => none
              | h2 :: v4 =>
                if h2 ≠ 45 then none
                else
                  match getnum v4 true with
                  | none => none
                  | some (day, v5) =>
                    if v5 ≠ [] then none
                    else if day < 1 ∨ daysIn month year < day then none
                    else some ⟨year, month, day, 0, 0⟩
  | _ => none

/-- Go `time.Parse` for the layout "15:04", on the bytes of the value. -/
def parseClockBytes (value : List Nat) : Option Time :=
  match getnum value false with
  | none => none
  | some (hour, v1) =>
    if 24 ≤ hour then none
    else
      match v1 with
      | [] => none
      | h1 :: v2 =>
        if h1 ≠ 58 then none
        else
          match getnum v2 true with
          | none => none
          | some (min, v3) =>
            if 60 ≤ min then none
            else if v3 ≠ [] then none
            else some ⟨0, 1, 1, hour, min⟩

/-- Go `time.Parse("2006-01-02", s)`: the time (the zero time on an error) and
whether there was an error. -/
def ParseDate (s : String) : Time × Bool :=
  match parseDateBytes (bytes s) with
  | some t => (t, false)
  | none => (Time.zero, true)

/-- Go `time.Parse("15:04", s)`: the time (the zero time on an error) and
whether there was an error. -/
def ParseClock (s : String) : Time × Bool :=
  match parseClockBytes (bytes s) with
  | some t => (t, false)
  | none => (Time.zero, true)

/-! ## The program -/

/-- Item structure for each item on the receipt. -/
structure Item where
  ShortDesc : String
  Price : String
deriving DecidableEq, Repr

/-- Receipt structure to hold the receipt data. -/
structure Receipt where
  RetName : String
  PurchaseDate : String
  PurchaseTime : String
  Items : List Item
  Total : String
deriving DecidableEq, Repr

/-- One pass of the loop of rule 5 over an item. -/
def rule5Step (arch : Arch) (points : Int) (item : Item) : Int :=
  let trimmedDesc := TrimSpace item.ShortDesc
  if len trimmedDesc % 3 = 0 then
    let itemPrice := (ParseFloat item.Price).1
    addInt points (toInt arch (Ceil (F64.mul itemPrice c0_2)))
  else points

/-- Go `calculatePoints`: the points of a receipt. -/
def calculatePoints (arch : Arch) (receipt : Receipt) : Int :=
  let points : Int := 0
  -- Rule 1: Points for alphanumeric characters in retailer name
  let points := addInt points (len receipt.RetName)
  -- Rule 2: 50 points if total is a round dollar amount
  let total := (ParseFloat receipt.Total).1
  let points := if F64.eq total (Floor total) then addInt points 50 else points
  -- Rule 3: 25 points if total is a multiple of 0.25
  let points := if F64.eq (Mod total c0_25) c0 then addInt points 25 else points
  -- Rule 4: 5 points for every 2 items on the receipt
  let points := addInt points (wrap64 ((receipt.Items.length / 2 : Nat) * 5))
  -- Rule 5: Price calculation for item description length multiple of 3
  let points := receipt.Items.foldl (rule5Step arch) points
  -- Rule 6: 6 points if the day of the purchase date is odd
  let purchaseDate := (ParseDate receipt.PurchaseDate).1
  let points := if purchaseDate.Day % 2 ≠ 0 then addInt points 6 else points
  -- Rule 7: 10 points if the purchase time is between 2:00pm and 4:00pm
  let purchaseTime := (ParseClock receipt.PurchaseTime).1
  let points :=
    if purchaseTime.Hour ≥ 14 ∧ purchaseTime.Hour < 16 then addInt points 10 else points
  points

/-! ### The rules one by one

The same statements as in `calculatePoints`, cut at the rule comments: each
takes the running `points` and gives the new value. -/

/-- Rule 1 (line 117). -/
def rule1 (points : Int) (retailer : String) : Int := addInt points (len retailer)

/-- Rules 2 and 3 (lines 120 to 128): they share the parsed total. -/
def totalRules (points : Int) (totalField : String) : Int :=
  let total := (ParseFloat totalField).1
  let points := if F64.eq total (Floor total) then addInt points 50 else points
  if F64.eq (Mod total c0_25) c0 then addInt points 25 else points

/-- Rule 4 (line 131). -/
def rule4 (points : Int) (items : List Item) : Int :=
  addInt points (wrap64 ((items.length / 2 : Nat) * 5))

/-- Rule 5 (lines 134 to 140). -/
def rule5 (arch : Arch) (points : Int) (items : List Item) : Int :=
  items.foldl (rule5Step arch) points

/-- Rule 6 (lines 143 to 146). -/
def rule6 (points : Int) (date : String) : Int :=
  let purchaseDate := (ParseDate date).1
  if purchaseDate.Day % 2 ≠ 0 then addInt points 6 else points

/-- Rule 7 (lines 149 to 152). -/
def rule7 (points : Int) (time : String) : Int :=
  let purchaseTime := (ParseClock time).1
  if purchaseTime.Hour ≥ 14 ∧ purchaseTime.Hour < 16 then addInt points 10 else points

/-! ### What each rule adds -/

/-- The amount rules 2 and 3 add for a parsed total. -/
def totalBonusOf (total : F64) : Int :=
  (if F64.eq total (Floor total) then 50 else 0) +
    (if F64.eq (Mod total c0_25) c0 then 25 else 0)

/-- The amount rules 2 and 3 add for a total. -/
def totalBonus (totalField : String) : Int := totalBonusOf (ParseFloat totalField).1

/-- The amount rule 5 adds for one item. -/
def itemBonus (arch : Arch) (item : Item) : Int :=
  if len (TrimSpace item.ShortDesc) % 3 = 0 then
    toInt arch (Ceil (F64.mul (ParseFloat item.Price).1 c0_2))
  else 0

/-- The amount rule 6 adds for a date. -/
def dateBonus (date : String) : Int := if (ParseDate date).1.Day % 2 ≠ 0 then 6 else 0

/-- The amount rule 7 adds for a time. -/
def timeBonus (time : String) : Int :=
  if (ParseClock time).1.Hour ≥ 14 ∧ (ParseClock time).1.Hour < 16 then 10 else 0

/-- The sum of what the seven rules add, before any reduction to 64 bits. -/
def exactSum (arch : Arch) (receipt : Receipt) : Int :=
  len receipt.RetName + totalBonus receipt.Total +
    wrap64 ((receipt.Items.length / 2 : Nat) * 5) +
    (receipt.Items.map (itemBonus arch)).sum +
    dateBonus receipt.PurchaseDate + timeBonus receipt.PurchaseTime

/-! ## The scenario of the specification -/

/-- The receipt of the scenario of the specification. -/
def scenarioReceipt : Receipt :=
  { RetName := "Target"
    PurchaseDate := "2022-01-01"
    PurchaseTime := "13:01"
    Items :=
      [⟨"Mountain Dew 12PK", "6.49"⟩, ⟨"Emils Cheese Pizza", "12.25"⟩,
       ⟨"Knorr Creamy Chicken", "1.26"⟩, ⟨"Doritos Nacho Cheese", "3.35"⟩,
       ⟨"   Klarbrunn 12-PK 12 FL OZ  ", "12.00"⟩]
    Total := "1.25" }

/-! ## The wording of the specification

Definitions that follow the specification's words (a valid `HH:MM` time, a
valid calendar date, a currency amount), to compare with what the code reads. -/

/-- The value of a decimal digit byte. -/
def digitVal (c : Nat) : Nat := c - 48

/-- A valid 24-hour `HH:MM` time, read as the specification words it: two
digits, a colon, two digits, the hour below 24 and the minute below 60. Gives
the hour and the minute. -/
def clockHHMM (bs : List Nat) : Option (Nat × Nat) :=
  match bs with
  | [h1, h2, c, m1, m2] =>
    if isDigitByte h1 ∧ isDigitByte h2 ∧ c = 58 ∧ isDigitByte m1 ∧ isDigitByte m2 ∧
        digitVal h1 * 10 + digitVal h2 < 24 ∧ digitVal m1 * 10 + digitVal m2 < 60 then
      some (digitVal h1 * 10 + digitVal h2, digitVal m1 * 10 + digitVal m2)
    else none
  | _ => none

/-- The purchase time is a valid `HH:MM` time whose hour is 14 or 15. -/
def inAfternoonWindow (time : String) : Bool :=
  match clockHHMM (bytes time) with
  | some (h, _) => h = 14 ∨ h = 15
  | none => false

/-- The number of days of a month of the Gregorian calendar. -/
def calendarDays (year month : Nat) : Nat :=
  if month = 2 then
    (if year % 400 = 0 ∨ (year % 4 = 0 ∧ year % 100 ≠ 0) then 29 else 28)
  else if month = 4 ∨ month = 6 ∨ month = 9 ∨ month = 11 then 30
  else 31

/-- A valid calendar date written `YYYY-MM-DD`: four digits, a hyphen, two
digits, a hyphen, two digits, the month from 1 to 12 and the day from 1 to the
length of the month. Gives the year, the month and the day. -/
def calendarDate (bs : List Nat) : Option (Nat × Nat × Nat) :=
  match bs with
  | [y0, y1, y2, y3, c1, m0, m1, c2, d0, d1] =>
    if isDigitByte y0 ∧ isDigitByte y1 ∧ isDigitByte y2 ∧ isDigitByte y3 ∧ c1 = 45 ∧
        isDigitByte m0 ∧ isDigitByte m1 ∧ c2 = 45 ∧ isDigitByte d0 ∧ isDigitByte d1 ∧
        1 ≤ digitVal m0 * 10 + digitVal m1 ∧ digitVal m0 * 10 + digitVal m1 ≤ 12 ∧
        1 ≤ digitVal d0 * 10 + digitVal d1 ∧
        digitVal d0 * 10 + digitVal d1 ≤
          calendarDays (digitVal y0 * 1000 + digitVal y1 * 100 + digitVal y2 * 10 + digitVal y3)
            (digitVal m0 * 10 + digitVal m1) then
      some (digitVal y0 * 1000 + digitVal y1 * 100 + digitVal y2 * 10 + digitVal y3,
        digitVal m0 * 10 + digitVal m1, digitVal d0 * 10 + digitVal d1)
    else none
  | _ => none

/-- The number written by a list of decimal digit bytes, after `acc`. -/
def digitsValue (acc : Nat) (ds : List Nat) : Nat :=
  ds.foldl (fun n c => n * 10 + digitVal c) acc

/-- A non-negative currency amount written as digits, a point and exactly two
fractional digits (`D.cc`): the amount in hundredths, `100 * D + cc`. -/
def currencyCents (bs : List Nat) : Option Nat :=
  match bs.dropWhile isDigitByte with
  | [p, a, b] =>
    if bs.takeWhile isDigitByte ≠ [] ∧ p = 46 ∧ isDigitByte a ∧ isDigitByte b then
      some (digitsValue 0 (bs.takeWhile isDigitByte) * 100 + digitVal a * 10 + digitVal b)
    else none
  | _ => none

/-- The number of units in the double `0.2`. -/
def fifth : Nat := 3602879701896397 * 2 ^ 1020

/-! ## The two handlers

The server is modelled sequentially: one request is handled after the other.
The state is the map `receiptDB` and the number of identifiers `uuid.New` has
produced; the identifiers themselves are a parameter (`uuid k` is the string of
the `k`-th call). A response is the call that produces it: `http.Error` with
its message and code, or the JSON encoding of a response structure (status 200).
A request path is a string of Unicode code points, as every other string. -/

/-- The in-memory storage for receipts: a Go map from identifier to receipt,
as the list of its entries (at most one for a key, the latest). -/
abbrev Store := List (String × Receipt)

/-- Go `receipt, found := receiptDB[id]`. -/
def Store.get (db : Store) (id : String) : Option Receipt := db.lookup id

/-- Go `receiptDB[id] = receipt`: the entry of `id` is replaced or added. -/
def Store.put (db : Store) (id : String) (receipt : Receipt) : Store :=
  (id, receipt) :: db.filter (fun e => e.1 != id)

/-- The state of the process: the map and how many identifiers were generated. -/
structure Server where
  receiptDB : Store
  issued : Nat
deriving DecidableEq, Repr

/-- The state at process start: `receiptDB` is empty. -/
def Server.initial : Server := ⟨[], 0⟩

/-- What a handler writes: `httpError message code` is the call
`http.Error(w, message, code)`, which sends the status `code` and the message
as a plain-text body (ended by a line feed); `receiptID id` and `points p` are
the JSON encodings of `ReceiptIDResponse{ID: id}` and `PointsResponse{Points: p}`,
with the status 200. -/
inductive Response where
  | httpError (message : String) (code : Nat) : Response
  | receiptID (id : String) : Response
  | points (points : Int) : Response
deriving DecidableEq, Repr

/-- The HTTP status of a response. -/
def Response.status : Response → Nat
  | Response.httpError _ code => code
  | _ => 200

/-- Go `strings.TrimPrefix(s, pre)`. -/
def TrimPrefix (s pre : String) : String :=
  if pre.data.isPrefixOf s.data then String.mk (s.data.drop pre.data.length) else s

/-- Go `strings.TrimSuffix(s, suf)`. -/
def TrimSuffix (s suf : String) : String :=
  if suf.data.isSuffixOf s.data then
    String.mk (s.data.take (s.data.length - suf.data.length))
  else s

/-- Go `ProcessReceipt`: `decoded` is the result of decoding the request body,
a receipt or the error message of the decoder. -/
def ProcessReceipt (uuid : Nat → String) (srv : Server) (decoded : Except String Receipt) :
    Server × Response :=
  match decoded with
  | Except.error err => (srv, Response.httpError err 400)
  | Except.ok receipt =>
    -- Generate a unique ID for the receipt
    let receiptID := uuid srv.issued
    -- Save the receipt in the in-memory database
    ({ receiptDB := srv.receiptDB.put receiptID receipt, issued := srv.issued + 1 },
      Response.receiptID receiptID)

/-- Go `GetPoints`, for the request path `urlPath`. -/
def GetPoints (arch : Arch) (srv : Server) (urlPath : String) : Server × Response :=
  let path := TrimPrefix urlPath "/receipts/"
  let receiptID := TrimSuffix path "/points"
  match srv.receiptDB.get receiptID with
  | none => (srv, Response.httpError "Receipt not found" 404)
  | some receipt => (srv, Response.points (calculatePoints arch receipt))

/-- A request to one of the two handlers. -/
inductive Request where
  | process (decoded : Except String Receipt) : Request
  | getPoints (urlPath : String) : Request

/-- The server handles one request. -/
def serve (arch : Arch) (uuid : Nat → String) (srv : Server) : Request → Server × Response
  | Request.process decoded => ProcessReceipt uuid srv decoded
  | Request.getPoints urlPath => GetPoints arch srv urlPath

/-- The state after a list of requests, handled in order. -/
def serveAll (arch : Arch) (uuid : Nat → String) (srv : Server) (reqs : List Request) : Server :=
  reqs.foldl (fun s req => (serve arch uuid s req).1) srv

/-- The path of the points request for an identifier. -/
def pointsPath (id : String) : String := "/receipts/" ++ id ++ "/points"

/-! ## Lemmas: machine integers -/

set_option exponentiation.threshold 4096

attribute [irreducible] unit quarter fifth

theorem wrap64_wrap64_add (a b : Int) : wrap64 (wrap64 a + b) = wrap64 (a + b) := by
  unfold wrap64
  omega

theorem wrap64_add_wrap64 (a b : Int) : wrap64 (a + wrap64 b) = wrap64 (a + b) := by
  unfold wrap64
  omega

theorem wrap64_idem (a : Int) : wrap64 (wrap64 a) = wrap64 a := by
  unfold wrap64
  omega

theorem wrap64_of_fits (a : Int) (h1 : -(2 ^ 63) ≤ a) (h2 : a < 2 ^ 63) : wrap64 a = a := by
  unfold wrap64
  omega

theorem wrap64_range (a : Int) : -(2 ^ 63) ≤ wrap64 a ∧ wrap64 a < 2 ^ 63 := by
  unfold wrap64
  omega

theorem addInt_wrap64 (a b : Int) : addInt (wrap64 a) b = wrap64 (a + b) := by
  unfold addInt
  exact wrap64_wrap64_add a b

/-! ## Lemmas: the score as one wrapped sum -/

theorem rule5Step_eq (arch : Arch) (points : Int) (item : Item) :
    rule5Step arch points item = wrap64 (points + itemBonus arch item) ∨
      (rule5Step arch points item = points ∧ itemBonus arch item = 0) := by
  unfold rule5Step itemBonus addInt
  by_cases h : len (TrimSpace item.ShortDesc) % 3 = 0
  · left
    simp [h]
  · right
    simp [h]

theorem rule5_wrap (arch : Arch) (items : List Item) (a : Int) :
    rule5 arch (wrap64 a) items = wrap64 (a + (items.map (itemBonus arch)).sum) := by
  induction items generalizing a with
  | nil => simp [rule5]
  | cons it rest ih =>
    have hstep : rule5Step arch (wrap64 a) it = wrap64 (a + itemBonus arch it) := by
      rcases rule5Step_eq arch (wrap64 a) it with h | ⟨h, h0⟩
      · rw [h, wrap64_wrap64_add]
      · rw [h, h0, add_zero]
    have : rule5 arch (wrap64 a) (it :: rest) = rule5 arch (rule5Step arch (wrap64 a) it) rest := by
      simp [rule5]
    rw [this, hstep, ih]
    simp [add_assoc]

theorem calculatePoints_eq_rules (arch : Arch) (r : Receipt) :
    calculatePoints arch r =
      rule7 (rule6 (rule5 arch (rule4 (totalRules (rule1 0 r.RetName) r.Total) r.Items) r.Items)
        r.PurchaseDate) r.PurchaseTime := rfl

theorem totalRules_wrap (a : Int) (t : String) :
    totalRules (wrap64 a) t = wrap64 (a + totalBonus t) := by
  unfold totalRules totalBonus totalBonusOf
  by_cases h1 : F64.eq (ParseFloat t).1 (Floor (ParseFloat t).1) = true <;>
    by_cases h2 : F64.eq (Mod (ParseFloat t).1 c0_25) c0 = true <;>
    simp [h1, h2, addInt_wrap64, add_assoc]

theorem rule6_wrap (a : Int) (d : String) : rule6 (wrap64 a) d = wrap64 (a + dateBonus d) := by
  unfold rule6 dateBonus
  by_cases h : (ParseDate d).1.Day % 2 ≠ 0 <;> simp [h, addInt_wrap64]

theorem rule7_wrap (a : Int) (t : String) : rule7 (wrap64 a) t = wrap64 (a + timeBonus t) := by
  unfold rule7 timeBonus
  by_cases h : (ParseClock t).1.Hour ≥ 14 ∧ (ParseClock t).1.Hour < 16 <;>
    simp [h, addInt_wrap64]

theorem calculatePoints_eq_wrap (arch : Arch) (r : Receipt) :
    calculatePoints arch r = wrap64 (exactSum arch r) := by
  rw [calculatePoints_eq_rules]
  have h1 : rule1 0 r.RetName = wrap64 (len r.RetName) := by simp [rule1, addInt]
  have h4 : ∀ a, rule4 (wrap64 a) r.Items =
      wrap64 (a + wrap64 ((r.Items.length / 2 : Nat) * 5)) := by
    intro a
    simp [rule4, addInt_wrap64]
  rw [h1, totalRules_wrap, h4, rule5_wrap, rule6_wrap, rule7_wrap]
  rfl

/-! ## Lemmas: conversions that fit -/

theorem unit_eq : unit = 2 ^ 1074 := by unfold unit; rfl

theorem unit_pos : 0 < unit := by rw [unit_eq]; positivity

theorem toInt_fin_nat (arch : Arch) (n : Nat) (hn : n < 2 ^ 63) :
    toInt arch (F64.fin false (n * unit)) = n := by
  simp only [toInt]
  rw [Nat.mul_div_cancel _ unit_pos, if_pos hn]

theorem itemBonus_of_skip (arch : Arch) (item : Item)
    (h : len (TrimSpace item.ShortDesc) % 3 ≠ 0) : itemBonus arch item = 0 := by
  simp [itemBonus, h]

theorem itemBonus_of_nat (arch : Arch) (item : Item) (n : Nat)
    (h : len (TrimSpace item.ShortDesc) % 3 = 0)
    (hv : Ceil (F64.mul (ParseFloat item.Price).1 c0_2) = F64.fin false (n * unit))
    (hn : n < 2 ^ 63) : itemBonus arch item = n := by
  simp only [itemBonus, h, if_true, hv]
  exact toInt_fin_nat arch n hn

/-! ## Lemmas: parse errors -/

theorem ParseDate_of_error (d : String) (h : (ParseDate d).2 = true) :
    (ParseDate d).1 = Time.zero := by
  unfold ParseDate at h ⊢
  cases hp : parseDateBytes (bytes d) with
  | none => rfl
  | some t => simp [hp] at h

theorem floatOfParts_never_ErrSyntax (neg hex : Bool) (mant : Nat) (e : Int) :
    (floatOfParts neg hex mant e).2 ≠ some NumError.ErrSyntax := by
  unfold floatOfParts
  simp only []
  split <;> simp

theorem finishFloat_cases (s : List Nat) (neg hex : Bool) (d : Digits) (e : Int) (us : Bool)
    (rest : List Nat) :
    finishFloat s neg hex d e us rest = syntaxError ∨
      (finishFloat s neg hex d e us rest).2 ≠ some NumError.ErrSyntax := by
  unfold finishFloat
  split
  · left; rfl
  · split
    · left; rfl
    · right; exact floatOfParts_never_ErrSyntax _ _ _ _

theorem readExponent_cases (s : List Nat) (neg hex : Bool) (d : Digits) (rest : List Nat) :
    readExponent s neg hex d rest = syntaxError ∨
      (readExponent s neg hex d rest).2 ≠ some NumError.ErrSyntax := by
  unfold readExponent
  repeat' split
  all_goals first
    | (left; rfl)
    | exact finishFloat_cases _ _ _ _ _ _ _

theorem afterDigits_cases (s : List Nat) (neg hex : Bool) (dr : Digits × List Nat) :
    afterDigits s neg hex dr = syntaxError ∨
      (afterDigits s neg hex dr).2 ≠ some NumError.ErrSyntax := by
  unfold afterDigits
  split
  · left; rfl
  · exact readExponent_cases _ _ _ _ _

theorem readMantissa_cases (s : List Nat) (neg : Bool) (body : List Nat) :
    readMantissa s neg body = syntaxError ∨
      (readMantissa s neg body).2 ≠ some NumError.ErrSyntax :=
  afterDigits_cases _ _ _ _

theorem readFloat_cases (s : List Nat) :
    readFloat s = syntaxError ∨ (readFloat s).2 ≠ some NumError.ErrSyntax := by
  unfold readFloat
  split
  · left; rfl
  · exact readMantissa_cases _ _ _

theorem ParseFloat_syntax_zero (s : String) (h : (ParseFloat s).2 = some NumError.ErrSyntax) :
    (ParseFloat s).1 = F64.fin false 0 := by
  unfold ParseFloat at h ⊢
  simp only at h ⊢
  split at h
  · split at h
    · simp at h
    · rename_i hn
      rw [if_neg hn]
      rfl
  · rcases readFloat_cases (bytes s) with hc | hc
    · rw [hc]; rfl
    · exact absurd h hc

theorem bytesOfChars_length_ascii (cs : List Char) (h : ∀ c ∈ cs, c.toNat < 128) :
    (bytesOfChars cs).length = cs.length := by
  induction cs with
  | nil => rfl
  | cons c rest ih =>
    have hc : c.toNat < 128 := h c (List.mem_cons_self _ _)
    have hr : ∀ x ∈ rest, x.toNat < 128 := fun x hx => h x (List.mem_cons_of_mem _ hx)
    simp [bytesOfChars, utf8Bytes, hc, ih hr]

/-! ## Lemmas: dates and times -/

theorem daysIn_eq_calendarDays (year month : Nat) (h1 : 1 ≤ month) (h2 : month ≤ 12) :
    daysIn month year = calendarDays year month := by
  unfold daysIn calendarDays isLeap
  interval_cases month <;> simp
  split_ifs <;> omega

theorem getnum_fixed_eq (s : List Nat) (n : Nat) (rest : List Nat) :
    getnum s true = some (n, rest) ↔
      ∃ a b, s = a :: b :: rest ∧ isDigitByte a = true ∧ isDigitByte b = true ∧
        n = digitVal a * 10 + digitVal b := by
  unfold getnum digitVal
  constructor
  · intro h
    rcases s with _ | ⟨a, _ | ⟨b, r⟩⟩
    · simp at h
    · by_cases ha : isDigitByte a = true <;> simp [ha] at h
    · by_cases ha : isDigitByte a = true <;> by_cases hb : isDigitByte b = true <;>
        simp [ha, hb] at h
      exact ⟨a, b, by rw [h.2], ha, hb, h.1.symm⟩
  · rintro ⟨a, b, rfl, ha, hb, rfl⟩
    simp [ha, hb]

theorem getnum_free_eq (s : List Nat) (n : Nat) (rest : List Nat)
    (h : getnum s false = some (n, rest)) :
    (∃ a b, s = a :: b :: rest ∧ isDigitByte a = true ∧ isDigitByte b = true ∧
        n = digitVal a * 10 + digitVal b) ∨ n ≤ 9 := by
  unfold getnum at h
  rcases s with _ | ⟨a, _ | ⟨b, r⟩⟩
  · simp at h
  · by_cases ha : isDigitByte a = true <;> simp [ha] at h
    right
    simp [isDigitByte] at ha
    omega
  · by_cases ha : isDigitByte a = true <;> by_cases hb : isDigitByte b = true <;>
      simp [ha, hb] at h
    · left
      exact ⟨a, b, by rw [h.2], ha, hb, h.1.symm⟩
    · right
      simp [isDigitByte] at ha
      omega

theorem parseClock_some (bs : List Nat) (t : Time) (h : parseClockBytes bs = some t)
    (h14 : 10 ≤ t.hour) : clockHHMM bs = some (t.hour, t.minute) := by
  unfold parseClockBytes at h
  cases hg : getnum bs false with
  | none => simp [hg] at h
  | some p =>
    obtain ⟨hour, v1⟩ := p
    simp only [hg] at h
    by_cases hh : 24 ≤ hour
    · simp [hh] at h
    · simp only [hh, if_false] at h
      rcases v1 with _ | ⟨c, v2⟩
      · simp at h
      · by_cases hc : c = 58
        · simp only [hc, ne_eq, not_true_eq_false, if_false] at h
          cases hg2 : getnum v2 true with
          | none => simp [hg2] at h
          | some q =>
            obtain ⟨mn, v3⟩ := q
            simp only [hg2] at h
            by_cases hm : 60 ≤ mn
            · simp [hm] at h
            · simp only [hm, if_false] at h
              by_cases hv : v3 = []
              · simp only [hv, ne_eq, not_true_eq_false, if_false, Option.some.injEq] at h
                subst h
                rcases (getnum_fixed_eq _ _ _).1 hg2 with ⟨d, e, hv2, hd, he, hmn⟩
                rcases getnum_free_eq _ _ _ hg with ⟨a, b, hbs, ha, hb, hhour⟩ | hle
                · subst hbs hv2 hc hv
                  have h1 : digitVal a * 10 + digitVal b < 24 := by omega
                  have h2 : digitVal d * 10 + digitVal e < 60 := by omega
                  simp [clockHHMM, ha, hb, hd, he, h1, h2, hhour, hmn]
                · simp at h14
                  omega
              · simp [hv] at h
        · simp [hc] at h

theorem clockHHMM_some (bs : List Nat) (hr mn : Nat) (h : clockHHMM bs = some (hr, mn)) :
    parseClockBytes bs = some ⟨0, 1, 1, hr, mn⟩ := by
  unfold clockHHMM at h
  split at h
  · rename_i h1 h2 c m1 m2
    split at h
    · rename_i hc
      obtain ⟨a1, a2, a3, a4, a5, a6, a7⟩ := hc
      simp only [Option.some.injEq, Prod.mk.injEq] at h
      obtain ⟨e1, e2⟩ := h
      subst a3
      have g1 : getnum [h1, h2, 58, m1, m2] false = some (hr, [58, m1, m2]) := by
        simp [getnum, a1, a2, ← e1, digitVal]
      have g2 : getnum [m1, m2] true = some (mn, []) := by
        simp [getnum, a4, a5, ← e2, digitVal]
      have n1 : ¬ 24 ≤ hr := by omega
      have n2 : ¬ 60 ≤ mn := by omega
      simp [parseClockBytes, g1, g2, n1, n2]
    · simp at h
  · simp at h

theorem parseClock_window (bs : List Nat) :
    (14 ≤ ((parseClockBytes bs).getD Time.zero).hour ∧
        ((parseClockBytes bs).getD Time.zero).hour < 16) ↔
      (match clockHHMM bs with
        | some (h, _) => h = 14 ∨ h = 15
        | none => False) := by
  constructor
  · intro hw
    cases hp : parseClockBytes bs with
    | none => simp [hp, Time.zero] at hw
    | some t =>
      simp only [hp, Option.getD_some] at hw
      rw [parseClock_some bs t hp (by omega)]
      simp only
      omega
  · intro hw
    cases hc : clockHHMM bs with
    | none => simp [hc] at hw
    | some p =>
      obtain ⟨hr, mn⟩ := p
      simp only [hc] at hw
      rw [clockHHMM_some bs hr mn hc]
      simp only [Option.getD_some]
      omega

theorem calendarDate_some (bs : List Nat) (y m d : Nat)
    (h : calendarDate bs = some (y, m, d)) : parseDateBytes bs = some ⟨y, m, d, 0, 0⟩ := by
  unfold calendarDate at h
  split at h
  · rename_i y0 y1 y2 y3 c1 m0 m1 c2 d0 d1
    split at h
    · rename_i hc
      obtain ⟨a0, a1, a2, a3, b1, a4, a5, b2, a6, a7, r1, r2, r3, r4⟩ := hc
      simp only [Option.some.injEq, Prod.mk.injEq] at h
      obtain ⟨e1, e2, e3⟩ := h
      subst b1 b2
      have g1 : getnum [m0, m1, 45, d0, d1] true = some (m, [45, d0, d1]) := by
        simp [getnum, a4, a5, ← e2, digitVal]
      have g2 : getnum [d0, d1] true = some (d, []) := by
        simp [getnum, a6, a7, ← e3, digitVal]
      have hm1 : 1 ≤ m := by omega
      have hm2 : m ≤ 12 := by omega
      have hdays : daysIn m y = calendarDays y m := daysIn_eq_calendarDays y m hm1 hm2
      have n1 : ¬ (m = 0 ∨ 12 < m) := by omega
      have n2 : ¬ (d < 1 ∨ daysIn m y < d) := by
        rw [hdays, ← e1, ← e2, ← e3]
        omega
      have ey : (y0 - 48) * 1000 + (y1 - 48) * 100 + (y2 - 48) * 10 + (y3 - 48) = y := by
        rw [← e1]; rfl
      simp only [parseDateBytes, a0, a1, a2, a3, Bool.and_self, Bool.not_true, ne_eq,
        not_true_eq_false, if_false, g1, g2, n1, n2, ey]
      simp
    · simp at h
  · simp at h

theorem dateBonus_of_calendarDate (date : String) (y m d : Nat)
    (h : calendarDate (bytes date) = some (y, m, d)) :
    dateBonus date = if d % 2 = 1 then 6 else 0 := by
  unfold dateBonus ParseDate
  rw [calendarDate_some _ _ _ _ h]
  simp only [Time.Day]
  by_cases hd : d % 2 = 1
  · simp [hd]
  · have : d % 2 = 0 := by omega
    simp [this]

theorem timeBonus_eq (time : String) :
    timeBonus time = if inAfternoonWindow time then 10 else 0 := by
  have hw := parseClock_window (bytes time)
  have hp : (ParseClock time).1 = (parseClockBytes (bytes time)).getD Time.zero := by
    unfold ParseClock
    cases parseClockBytes (bytes time) <;> rfl
  unfold timeBonus inAfternoonWindow Time.Hour
  rw [hp]
  cases hc : clockHHMM (bytes time) with
  | none =>
    rw [hc] at hw
    have hn := hw.not.2 (by simp)
    simp only [ge_iff_le] at hn ⊢
    rw [if_neg hn]
    simp
  | some p =>
    obtain ⟨hr, mn⟩ := p
    rw [hc] at hw
    simp only at hw
    by_cases hx : hr = 14 ∨ hr = 15
    · rw [if_pos (hw.2 hx)]
      simp [hx]
    · rw [if_neg (hw.not.2 hx)]
      simp [hx]

theorem rule7_eq_add (points : Int) (time : String) :
    rule7 points time = if timeBonus time = 10 then addInt points 10 else points := by
  unfold rule7 timeBonus
  by_cases h : (ParseClock time).1.Hour ≥ 14 ∧ (ParseClock time).1.Hour < 16 <;> simp [h]

theorem rule6_eq_add (points : Int) (date : String) :
    rule6 points date = if dateBonus date = 6 then addInt points 6 else points := by
  unfold rule6 dateBonus
  by_cases h : (ParseDate date).1.Day % 2 ≠ 0 <;> simp [h]

theorem ParseClock_of_error (t : String) (h : (ParseClock t).2 = true) :
    (ParseClock t).1 = Time.zero := by
  unfold ParseClock at h ⊢
  cases hp : parseClockBytes (bytes t) with
  | none => rfl
  | some t => simp [hp] at h

/-! ## Lemmas: rounding -/

theorem excess_spec (fuel n : Nat) (h : n < 2 ^ 53 * 2 ^ fuel) :
    n / 2 ^ excess fuel n < 2 ^ 53 ∧ (excess fuel n = 0 ∨ 2 ^ 52 ≤ n / 2 ^ excess fuel n) := by
  induction fuel generalizing n with
  | zero =>
    simp only [excess, pow_zero, Nat.div_one]
    exact ⟨by simpa using h, Or.inl trivial⟩
  | succ f ih =>
    unfold excess
    by_cases hn : n < 2 ^ 53
    · rw [if_pos hn]
      simp only [pow_zero, Nat.div_one]
      exact ⟨hn, Or.inl trivial⟩
    · rw [if_neg hn]
      have h2 : n / 2 < 2 ^ 53 * 2 ^ f := by
        rw [pow_succ] at h
        omega
      obtain ⟨a, b⟩ := ih (n / 2) h2
      have e : n / 2 ^ (excess f (n / 2) + 1) = n / 2 / 2 ^ excess f (n / 2) := by
        rw [pow_succ, Nat.mul_comm, Nat.div_div_eq_div_mul]
      rw [e]
      refine ⟨a, Or.inr ?_⟩
      rcases b with b | b
      · rw [b]
        simp only [pow_zero, Nat.div_one]
        omega
      · exact b

theorem excess_self_spec (n : Nat) :
    n / 2 ^ excess n n < 2 ^ 53 ∧ (excess n n = 0 ∨ 2 ^ 52 ≤ n / 2 ^ excess n n) := by
  apply excess_spec
  have h1 : n < 2 ^ n := Nat.lt_two_pow n
  have h2 : 2 ^ n ≤ 2 ^ 53 * 2 ^ n := Nat.le_mul_of_pos_left _ (by positivity)
  omega

theorem rne_upper (p q : Nat) (hq : 0 < q) : 2 * (q * rne p q) ≤ 2 * p + q := by
  have hd := Nat.div_add_mod p q
  have hm := Nat.mod_lt p hq
  unfold rne
  simp only
  generalize p / q = d at *
  generalize p % q = r at *
  subst hd
  split_ifs <;> nlinarith

theorem rne_lower (p q : Nat) (hq : 0 < q) : 2 * p ≤ 2 * (q * rne p q) + q := by
  have hd := Nat.div_add_mod p q
  have hm := Nat.mod_lt p hq
  unfold rne
  simp only
  generalize p / q = d at *
  generalize p % q = r at *
  subst hd
  split_ifs <;> nlinarith

theorem rne_exact (q m : Nat) (hq : 0 < q) : rne (q * m) q = m := by
  unfold rne
  simp [Nat.mul_mod_right, Nat.mul_div_cancel_left _ hq, hq]

/-- What rounding guarantees: the result is a multiple of the spacing `2^s`, it
is within half a spacing of `p / q`, and `p / q` lies in the binade of that
spacing (or below the first normal binade when `s = 0`). -/
theorem roundUnits_spec (p q : Nat) (hq : 0 < q) :
    ∃ s j, roundUnits p q = j * 2 ^ s ∧
      2 * (q * (j * 2 ^ s)) ≤ 2 * (p * unit) + q * 2 ^ s ∧
      2 * (p * unit) ≤ 2 * (q * (j * 2 ^ s)) + q * 2 ^ s ∧
      p * unit < q * (2 ^ 53 * 2 ^ s) ∧
      (s = 0 ∨ q * (2 ^ 52 * 2 ^ s) ≤ p * unit) := by
  obtain ⟨h1, h2⟩ := excess_self_spec (p * unit / q)
  refine ⟨excess (p * unit / q) (p * unit / q),
    rne (p * unit) (q * 2 ^ excess (p * unit / q) (p * unit / q)), rfl, ?_, ?_, ?_, ?_⟩
  · have := rne_upper (p * unit) (q * 2 ^ excess (p * unit / q) (p * unit / q)) (by positivity)
    calc 2 * (q * (rne (p * unit) (q * 2 ^ excess (p * unit / q) (p * unit / q)) *
            2 ^ excess (p * unit / q) (p * unit / q)))
        = 2 * (q * 2 ^ excess (p * unit / q) (p * unit / q) *
            rne (p * unit) (q * 2 ^ excess (p * unit / q) (p * unit / q))) := by ring
      _ ≤ _ := this
  · have := rne_lower (p * unit) (q * 2 ^ excess (p * unit / q) (p * unit / q)) (by positivity)
    calc 2 * (p * unit) ≤ _ := this
      _ = _ := by ring
  · rw [Nat.div_div_eq_div_mul] at h1
    rw [Nat.div_lt_iff_lt_mul (by positivity)] at h1
    calc p * unit < 2 ^ 53 * (q * 2 ^ excess (p * unit / q) (p * unit / q)) := h1
      _ = _ := by ring
  · rcases h2 with h2 | h2
    · exact Or.inl h2
    · right
      rw [Nat.div_div_eq_div_mul] at h2
      rw [Nat.le_div_iff_mul_le (by positivity)] at h2
      calc q * (2 ^ 52 * 2 ^ excess (p * unit / q) (p * unit / q))
          = 2 ^ 52 * (q * 2 ^ excess (p * unit / q) (p * unit / q)) := by ring
        _ ≤ _ := h2

/-- A value `m * 2^t` units with `m < 2^53` is a double: rounding returns it. -/
theorem roundUnits_exact (p q m t : Nat) (hq : 0 < q) (hm : m < 2 ^ 53)
    (h : p * unit = q * (m * 2 ^ t)) : roundUnits p q = m * 2 ^ t := by
  unfold roundUnits
  simp only
  have hn : p * unit / q = m * 2 ^ t := by
    rw [h, Nat.mul_div_cancel_left _ hq]
  rw [hn]
  obtain ⟨h1, h2⟩ := excess_self_spec (m * 2 ^ t)
  generalize excess (m * 2 ^ t) (m * 2 ^ t) = s at h1 h2
  have hst : s ≤ t := by
    by_contra hc
    push_neg at hc
    rcases h2 with h2 | h2
    · omega
    · have e : 2 ^ s = 2 ^ t * 2 ^ (s - t) := by
        rw [← pow_add]
        congr 1
        omega
      rw [e, ← Nat.div_div_eq_div_mul, Nat.mul_div_cancel _ (by positivity)] at h2
      have h3 : m / 2 ^ (s - t) ≤ m / 2 := by
        apply Nat.div_le_div_left _ (by norm_num)
        calc 2 = 2 ^ 1 := by norm_num
          _ ≤ 2 ^ (s - t) := Nat.pow_le_pow_right (by norm_num) (by omega)
      omega
  have e : 2 ^ t = 2 ^ s * 2 ^ (t - s) := by
    rw [← pow_add]
    congr 1
    omega
  have e2 : q * (m * 2 ^ t) = q * 2 ^ s * (m * 2 ^ (t - s)) := by
    rw [e]; ring
  rw [h, e2, rne_exact _ _ (by positivity), e]
  ring

/-- Rounding a fraction that is at least `2^-1022` has a relative error of at
most `2^-53`. -/
theorem roundUnits_rel (p q : Nat) (hq : 0 < q) (hnorm : q * 2 ^ 52 ≤ p * unit) :
    |((roundUnits p q : Nat) : ℚ) / unit - (p : ℚ) / q| ≤ (p : ℚ) / q / 2 ^ 53 := by
  obtain ⟨s, j, hk, hup, hlo, _, hbin⟩ := roundUnits_spec p q hq
  rw [hk]
  have hU : (0 : ℚ) < (unit : ℚ) := by exact_mod_cast unit_pos
  have hQ : (0 : ℚ) < (q : ℚ) := by exact_mod_cast hq
  have hS : (0 : ℚ) < (2 : ℚ) ^ s := by positivity
  have hbin2 : (q : ℚ) * (2 ^ 52 * 2 ^ s) ≤ p * unit := by
    rcases hbin with rfl | hb
    · simpa using (by exact_mod_cast hnorm : (q : ℚ) * 2 ^ 52 ≤ p * unit)
    · exact_mod_cast hb
  have hup2 : 2 * ((q : ℚ) * (j * 2 ^ s)) ≤ 2 * (p * unit) + q * 2 ^ s := by exact_mod_cast hup
  have hlo2 : 2 * ((p : ℚ) * unit) ≤ 2 * (q * (j * 2 ^ s)) + q * 2 ^ s := by exact_mod_cast hlo
  have hUQ : (0 : ℚ) < (unit : ℚ) * q := by positivity
  have e : ((j * 2 ^ s : Nat) : ℚ) / unit - (p : ℚ) / q =
      ((j : ℚ) * 2 ^ s * q - p * unit) / (unit * q) := by
    push_cast
    field_simp
    ring
  have e2 : (p : ℚ) / q / 2 ^ 53 * (unit * q) = p * unit / 2 ^ 53 := by
    field_simp
    ring
  rw [e, abs_div, abs_of_pos hUQ, div_le_iff₀ hUQ, e2, abs_le]
  constructor <;> linarith

theorem roundF64_fin (neg : Bool) (p q : Nat) (hq : 0 < q) (hsmall : p < q * 2 ^ 200) :
    roundF64 neg p q = F64.fin neg (roundUnits p q) := by
  obtain ⟨s, j, hk, hup, _, _, hbin⟩ := roundUnits_spec p q hq
  have h1 : q * roundUnits p q ≤ 2 * (p * unit) + q := by
    rw [hk]
    rcases hbin with rfl | hb
    · simp only [pow_zero, mul_one] at hup ⊢
      omega
    · have : q * 2 ^ s ≤ q * (2 ^ 52 * 2 ^ s) := by
        apply Nat.mul_le_mul_left
        exact Nat.le_mul_of_pos_left _ (by positivity)
      omega
  have h2 : 2 * (p * unit) + q < q * (2 ^ 201 * unit + 1) := by
    have : p * unit < q * 2 ^ 200 * unit := Nat.mul_lt_mul_of_pos_right hsmall unit_pos
    calc 2 * (p * unit) + q < 2 * (q * 2 ^ 200 * unit) + q := by omega
      _ = q * (2 ^ 201 * unit + 1) := by ring
  have h3 : roundUnits p q < 2 ^ 201 * unit + 1 :=
    Nat.lt_of_mul_lt_mul_left (lt_of_le_of_lt h1 h2)
  have h4 : 2 ^ 201 * unit ≤ maxUnits := by decide!
  unfold roundF64
  simp only
  rw [if_neg (by omega)]

theorem lower_digit (c : Nat) (h : isDigitByte c = true) : lower c = c := by
  simp only [isDigitByte, Bool.and_eq_true, decide_eq_true_eq] at h
  obtain ⟨h1, h2⟩ := h
  unfold lower
  interval_cases c <;> rfl

theorem readDigits_digits (ds rest : List Nat) (st : Digits) (hds : ∀ c ∈ ds, isDigitByte c = true)
    (hne : ds ≠ []) :
    readDigits false (ds ++ rest) st =
      readDigits false rest
        { st with
          sawdigits := true
          mant := digitsValue st.mant ds
          frac := if st.sawdot then st.frac + ds.length else st.frac } := by
  induction ds generalizing st with
  | nil => exact absurd rfl hne
  | cons c cs ih =>
    have hc : isDigitByte c = true := hds c (List.mem_cons_self _ _)
    have hcs : ∀ x ∈ cs, isDigitByte x = true := fun x hx => hds x (List.mem_cons_of_mem _ hx)
    have hc2 := hc
    simp only [isDigitByte, Bool.and_eq_true, decide_eq_true_eq] at hc2
    have n1 : c ≠ 95 := by omega
    have n2 : c ≠ 46 := by omega
    rw [List.cons_append, readDigits]
    simp only [n1, n2, hc, if_true, if_false]
    by_cases hnil : cs = []
    · subst hnil
      simp only [List.nil_append, digitsValue, List.foldl, digitVal, List.length_singleton]
      congr 2
    · rw [ih _ hcs hnil]
      simp only [digitsValue, List.foldl, digitVal, List.length_cons]
      congr 2
      by_cases hd : st.sawdot = true <;> simp [hd]
      omega

theorem currencyCents_shape (bs : List Nat) (n : Nat) (h : currencyCents bs = some n) :
    ∃ ds a b, bs = ds ++ [46, a, b] ∧ ds ≠ [] ∧ (∀ c ∈ ds, isDigitByte c = true) ∧
      isDigitByte a = true ∧ isDigitByte b = true ∧
      n = digitsValue 0 ds * 100 + digitVal a * 10 + digitVal b := by
  unfold currencyCents at h
  split at h
  · rename_i p a b hdrop
    split at h
    · rename_i hc
      obtain ⟨h1, h2, h3, h4⟩ := hc
      simp only [Option.some.injEq] at h
      refine ⟨bs.takeWhile isDigitByte, a, b, ?_, h1, ?_, h3, h4, h.symm⟩
      · rw [← h2, ← hdrop, List.takeWhile_append_dropWhile]
      · intro c hc
        exact (List.mem_takeWhile_imp hc)
    · simp at h
  · simp at h

theorem special_of_digit (c : Nat) (rest : List Nat) (hc : isDigitByte c = true) :
    special (c :: rest) = none := by
  simp only [isDigitByte, Bool.and_eq_true, decide_eq_true_eq] at hc
  unfold special
  have n1 : ¬ (c = 43 ∨ c = 45) := by omega
  have n2 : ¬ (c = 105 ∨ c = 73) := by omega
  have n3 : ¬ (c = 110 ∨ c = 78) := by omega
  simp only [n1, n2, n3, if_false]

theorem hasHexPrefix_currency (ds : List Nat) (a b : Nat)
    (hds : ∀ c ∈ ds, isDigitByte c = true) : hasHexPrefix (ds ++ [46, a, b]) = false := by
  rcases ds with _ | ⟨c, _ | ⟨x, r⟩⟩
  · simp [hasHexPrefix, lower]
  · simp [hasHexPrefix, lower]
  · have hx : isDigitByte x = true := hds x (by simp)
    have hl := lower_digit x hx
    simp only [isDigitByte, Bool.and_eq_true, decide_eq_true_eq] at hx
    rcases r with _ | ⟨y, r2⟩ <;> simp [hasHexPrefix, hl] <;> omega

theorem ParseFloat_currency (s : String) (n : Nat) (h : currencyCents (bytes s) = some n) :
    ParseFloat s = floatOfParts false false n (-2) := by
  obtain ⟨ds, a, b, hbs, hne, hds, ha, hb, hn⟩ := currencyCents_shape _ _ h
  obtain ⟨c, ds2, rfl⟩ := List.exists_cons_of_ne_nil hne
  have hc : isDigitByte c = true := hds c (List.mem_cons_self _ _)
  have hc2 := hc
  simp only [isDigitByte, Bool.and_eq_true, decide_eq_true_eq] at hc2
  have ha2 := ha
  simp only [isDigitByte, Bool.and_eq_true, decide_eq_true_eq] at ha2
  have hb2 := hb
  simp only [isDigitByte, Bool.and_eq_true, decide_eq_true_eq] at hb2
  have n1 : ¬ (c = 43 ∨ c = 45) := by omega
  have n2 : ¬ c = 45 := by omega
  unfold ParseFloat
  simp only [hbs, List.cons_append, special_of_digit c _ hc]
  have hhex := hasHexPrefix_currency (c :: ds2) a b hds
  rw [List.cons_append] at hhex
  have hdig := readDigits_digits (c :: ds2) [46, a, b] ⟨0, 0, false, false, false⟩ hds hne
  rw [List.cons_append] at hdig
  have e2 : decide (c = 45) = false := by simp [n2]
  unfold readFloat
  simp only [if_neg n1, e2]
  unfold readMantissa
  rw [hhex]
  simp only [Bool.false_eq_true, if_false]
  rw [hdig]
  have a1 : a ≠ 95 := by omega
  have a2 : a ≠ 46 := by omega
  have b1 : b ≠ 95 := by omega
  have b2 : b ≠ 46 := by omega
  simp only [readDigits, a1, a2, b1, b2, ha, hb, if_true, if_false, Bool.false_eq_true,
    show (46 : Nat) ≠ 95 by decide, ne_eq, not_true_eq_false, not_false_eq_true]
  simp only [afterDigits, Bool.not_true, Bool.false_eq_true, if_false, readExponent,
    finishFloat, ne_eq, not_true_eq_false, Bool.false_and, Bool.and_false]
  congr 1
  rw [hn]
  simp only [digitVal]
  ring

/-! ## Lemmas: the total -/

theorem quarter_pow : quarter = 2 ^ 1072 := by unfold quarter; rfl

theorem unit_eq_quarter : unit = 4 * quarter := by
  rw [unit_eq, quarter_pow]
  norm_num

theorem quarter_pos : 0 < quarter := by rw [quarter_pow]; positivity

theorem c0_25_eq : c0_25 = F64.fin false quarter := by decide!

theorem ParseFloat_currency_fin (s : String) (n : Nat) (h : currencyCents (bytes s) = some n)
    (hn : n < 100 * 2 ^ 200) : (ParseFloat s).1 = F64.fin false (roundUnits n 100) := by
  rw [ParseFloat_currency s n h]
  unfold floatOfParts
  simp only [Bool.false_eq_true, if_false, show ¬ (0 : Int) ≤ -2 by decide,
    show (-(-2 : Int)).toNat = 2 by decide, show (10 : Nat) ^ 2 = 100 by norm_num]
  rw [roundF64_fin false n 100 (by norm_num) hn]

theorem totalBonusOf_fin (k : Nat) :
    totalBonusOf (F64.fin false k) =
      (if unit ∣ k then 50 else 0) + (if quarter ∣ k then 25 else 0) := by
  unfold totalBonusOf
  rw [c0_25_eq]
  have hq : quarter ≠ 0 := Nat.pos_iff_ne_zero.1 quarter_pos
  simp only [Floor, Mod, hq, if_false, F64.eq, c0]
  congr 1
  · by_cases hd : unit ∣ k
    · have : k / unit * unit = k := Nat.div_mul_cancel hd
      simp [hd, this]
    · have : k / unit * unit ≠ k := fun e => hd (Dvd.intro_left _ e)
      have hk : k ≠ 0 := fun e => hd (e ▸ dvd_zero _)
      simp [hd, hk, Ne.symm this]
  · by_cases hd : quarter ∣ k
    · simp [hd, Nat.mod_eq_zero_of_dvd hd]
    · have : k % quarter ≠ 0 := fun e => hd (Nat.dvd_of_mod_eq_zero e)
      simp [hd, this]

theorem round_cents_of_quarter (m : Nat) (hm : m < 2 ^ 53) :
    roundUnits (25 * m) 100 = m * quarter := by
  rw [quarter_pow]
  apply roundUnits_exact _ _ _ _ (by norm_num) hm
  rw [unit_eq_quarter, quarter_pow]
  ring

theorem round_cents_not_quarter (n : Nat) (hn : n < 2 ^ 53) (h25 : ¬ 25 ∣ n) :
    ¬ quarter ∣ roundUnits n 100 := by
  rintro ⟨j, hj⟩
  have hpos : 1 ≤ n := by
    rcases Nat.eq_zero_or_pos n with h0 | h0
    · exact absurd (h0 ▸ dvd_zero 25) h25
    · exact h0
  have hU : 100 * 2 ^ 52 ≤ unit := by decide!
  have hnorm : 100 * 2 ^ 52 ≤ n * unit := le_trans hU (Nat.le_mul_of_pos_left _ hpos)
  have hrel := roundUnits_rel n 100 (by norm_num) hnorm
  rw [hj] at hrel
  have hUq : (unit : ℚ) = 4 * quarter := by exact_mod_cast unit_eq_quarter
  have hP : (0 : ℚ) < (quarter : ℚ) := by exact_mod_cast quarter_pos
  have e : (((quarter * j : Nat) : ℚ)) / unit = j / 4 := by
    rw [hUq]
    push_cast
    field_simp
    ring
  rw [e, abs_le] at hrel
  have hn' : (n : ℚ) < 2 ^ 53 := by exact_mod_cast hn
  have h1 : (25 * j : ℚ) - n < 1 := by
    have := hrel.2
    have h3 : (n : ℚ) / 100 / 2 ^ 53 < 1 / 100 := by
      rw [div_div, div_lt_div_iff₀ (by positivity) (by norm_num)]
      linarith
    linarith
  have h2 : (n : ℚ) - 25 * j < 1 := by
    have := hrel.1
    have h3 : (n : ℚ) / 100 / 2 ^ 53 < 1 / 100 := by
      rw [div_div, div_lt_div_iff₀ (by positivity) (by norm_num)]
      linarith
    linarith
  have h1' : 25 * j < n + 1 := by exact_mod_cast (by linarith : (25 * j : ℚ) < n + 1)
  have h2' : n < 25 * j + 1 := by exact_mod_cast (by linarith : (n : ℚ) < 25 * j + 1)
  exact h25 ⟨j, by omega⟩

theorem totalBonus_currency (s : String) (n : Nat) (h : currencyCents (bytes s) = some n)
    (hn : n < 10 ^ 15) :
    totalBonus s = (if n % 100 = 0 then 50 else 0) + (if n % 25 = 0 then 25 else 0) := by
  have hn2 : n < 100 * 2 ^ 200 := by
    have : (10 : Nat) ^ 15 ≤ 100 * 2 ^ 200 := by norm_num
    omega
  unfold totalBonus
  rw [ParseFloat_currency_fin s n h hn2, totalBonusOf_fin]
  by_cases h25 : 25 ∣ n
  · obtain ⟨m, rfl⟩ := h25
    have hm : m < 2 ^ 53 := by
      norm_num at hn ⊢
      omega
    rw [round_cents_of_quarter m hm]
    have d1 : quarter ∣ m * quarter := Dvd.intro_left _ rfl
    have d2 : unit ∣ m * quarter ↔ 25 * m % 100 = 0 := by
      rw [unit_eq_quarter, mul_comm m, mul_comm 4, Nat.mul_dvd_mul_iff_left quarter_pos]
      omega
    simp only [d1, if_true, Nat.mul_mod_right]
    by_cases hx : 25 * m % 100 = 0
    · simp [hx, d2.2 hx]
    · simp [hx, mt d2.1 hx]
  · have hlt : n < 2 ^ 53 := by
      norm_num at hn ⊢
      omega
    have hq := round_cents_not_quarter n hlt h25
    have hu : ¬ unit ∣ roundUnits n 100 := by
      intro hd
      apply hq
      rw [unit_eq_quarter] at hd
      exact dvd_trans (Dvd.intro_left _ rfl) hd
    have h1 : ¬ n % 25 = 0 := fun e => h25 (Nat.dvd_of_mod_eq_zero e)
    have h2 : ¬ n % 100 = 0 := by omega
    simp [hq, hu, h1, h2]

theorem totalRules_eq (points : Int) (t : String) :
    totalRules points t =
      if totalBonus t = 75 then addInt (addInt points 50) 25
      else if totalBonus t = 50 then addInt points 50
      else if totalBonus t = 25 then addInt points 25
      else points := by
  unfold totalRules totalBonus totalBonusOf
  by_cases h1 : F64.eq (ParseFloat t).1 (Floor (ParseFloat t).1) = true <;>
    by_cases h2 : F64.eq (Mod (ParseFloat t).1 c0_25) c0 = true <;>
    simp [h1, h2]

/-! ## Lemmas: the price of an item -/

theorem fifth_eq : fifth = 3602879701896397 * 2 ^ 1020 := by unfold fifth; rfl

theorem c0_2_eq : c0_2 = F64.fin false fifth := by decide!

/-- Five times the double `0.2` is `1 + 2^-54`. -/
theorem five_fifth : 5 * fifth * 2 ^ 54 = unit * (2 ^ 54 + 1) := by
  rw [fifth_eq, unit_eq]
  norm_num

theorem unit_ge : 2 ^ 1000 ≤ unit := by
  rw [unit_eq]
  norm_num

theorem roundUnits_le (p q : Nat) (hq : 0 < q) :
    q * roundUnits p q ≤ 2 * (p * unit) + q := by
  obtain ⟨s, j, hk, hup, _, _, hbin⟩ := roundUnits_spec p q hq
  rw [hk]
  rcases hbin with rfl | hb
  · simp only [pow_zero, mul_one] at hup ⊢
    omega
  · have : q * 2 ^ s ≤ q * (2 ^ 52 * 2 ^ s) := by
      apply Nat.mul_le_mul_left
      exact Nat.le_mul_of_pos_left _ (by positivity)
    omega

/-- The product of `m` (a whole number of fives, as a double) and the double
`0.2` rounds to `m` exactly. -/
theorem round_five_times_fifth (m : Nat) (hm : m < 2 ^ 50) :
    roundUnits (5 * m * unit * fifth) (unit * unit) = m * unit := by
  have hU := unit_pos
  have hUU : 0 < unit * unit := Nat.mul_pos hU hU
  obtain ⟨s, j, hk, hup, hlo, hlt, hbin⟩ := roundUnits_spec (5 * m * unit * fifth) (unit * unit) hUU
  rw [hk]
  -- the exact product, in units
  have hp : 5 * m * unit * fifth * unit = unit * unit * (5 * m * fifth) := by ring
  rw [hp] at hup hlo hlt hbin
  have hup' : 2 * (j * 2 ^ s) ≤ 2 * (5 * m * fifth) + 2 ^ s := by
    have : unit * unit * (2 * (j * 2 ^ s)) ≤ unit * unit * (2 * (5 * m * fifth) + 2 ^ s) := by
      calc unit * unit * (2 * (j * 2 ^ s)) = 2 * (unit * unit * (j * 2 ^ s)) := by ring
        _ ≤ 2 * (unit * unit * (5 * m * fifth)) + unit * unit * 2 ^ s := hup
        _ = _ := by ring
    exact Nat.le_of_mul_le_mul_left this hUU
  have hlo' : 2 * (5 * m * fifth) ≤ 2 * (j * 2 ^ s) + 2 ^ s := by
    have : unit * unit * (2 * (5 * m * fifth)) ≤ unit * unit * (2 * (j * 2 ^ s) + 2 ^ s) := by
      calc unit * unit * (2 * (5 * m * fifth)) = 2 * (unit * unit * (5 * m * fifth)) := by ring
        _ ≤ 2 * (unit * unit * (j * 2 ^ s)) + unit * unit * 2 ^ s := hlo
        _ = _ := by ring
    exact Nat.le_of_mul_le_mul_left this hUU
  have hlt' : 5 * m * fifth < 2 ^ 53 * 2 ^ s := Nat.lt_of_mul_lt_mul_left hlt
  have hbin' : s = 0 ∨ 2 ^ 52 * 2 ^ s ≤ 5 * m * fifth := by
    rcases hbin with h | h
    · exact Or.inl h
    · exact Or.inr (Nat.le_of_mul_le_mul_left h hUU)
  -- the exact product is `m * unit * (1 + 2^-54)`
  have hx : 5 * m * fifth * 2 ^ 54 = m * unit * 2 ^ 54 + m * unit := by
    calc 5 * m * fifth * 2 ^ 54 = m * (5 * fifth * 2 ^ 54) := by ring
      _ = m * (unit * (2 ^ 54 + 1)) := by rw [five_fifth]
      _ = _ := by ring
  generalize 5 * m * fifth = x at hup' hlo' hlt' hbin' hx
  rcases Nat.eq_zero_or_pos m with rfl | hmpos
  · have hx1 : x * 2 ^ 54 = 0 := by
      rw [hx]
      ring
    have hx0 : x = 0 := by omega
    subst hx0
    have hs : s = 0 := by
      rcases hbin' with h | h
      · exact h
      · have : 0 < 2 ^ 52 * 2 ^ s := by positivity
        omega
    subst hs
    simp only [pow_zero, mul_one] at hup' ⊢
    omega
  · have hge := unit_ge
    have hmU : 2 ^ 1000 ≤ m * unit := le_trans hge (Nat.le_mul_of_pos_left _ hmpos)
    have hxge : m * unit ≤ x := by
      have : m * unit * 2 ^ 54 ≤ x * 2 ^ 54 := by omega
      exact Nat.le_of_mul_le_mul_right this (by positivity)
    have hs0 : s ≠ 0 := by
      rintro rfl
      simp only [pow_zero, mul_one] at hlt'
      have : (2 : Nat) ^ 53 ≤ 2 ^ 1000 := Nat.pow_le_pow_right (by norm_num) (by norm_num)
      omega
    have hb : 2 ^ 52 * 2 ^ s ≤ x := by
      rcases hbin' with h | h
      · exact absurd h hs0
      · exact h
    -- the spacing divides `m * unit`
    have hxlt : x < 2 ^ 51 * unit := by
      have h1 : x * 2 ^ 54 < 2 ^ 51 * unit * 2 ^ 54 := by
        have : m * unit < 2 ^ 50 * unit := Nat.mul_lt_mul_of_pos_right hm hU
        have e : 2 ^ 51 * unit * 2 ^ 54 = 2 * (2 ^ 50 * unit * 2 ^ 54) := by ring
        rw [hx, e]
        nlinarith
      exact Nat.lt_of_mul_lt_mul_right h1
    have hsU : 2 ^ s < unit := by
      have h1 : 2 ^ 52 * 2 ^ s < 2 ^ 52 * unit := by
        calc 2 ^ 52 * 2 ^ s ≤ x := hb
          _ < 2 ^ 51 * unit := hxlt
          _ ≤ 2 ^ 52 * unit := Nat.mul_le_mul_right _ (by norm_num)
      exact Nat.lt_of_mul_lt_mul_left h1
    have hs1074 : s < 1074 := by
      rw [unit_eq] at hsU
      exact (Nat.pow_lt_pow_iff_right (by norm_num)).1 hsU
    obtain ⟨i, hi⟩ : ∃ i, m * unit = i * 2 ^ s := by
      refine ⟨m * 2 ^ (1074 - s), ?_⟩
      rw [unit_eq, mul_assoc, ← pow_add]
      congr 2
      omega
    -- the excess over `m * unit` is less than half a spacing
    have hsmall : 2 * x < 2 * (m * unit) + 2 ^ s := by
      have h1 : m * unit < 2 ^ 53 * 2 ^ s := lt_of_le_of_lt hxge hlt'
      have h2 : (2 * x) * 2 ^ 54 < (2 * (m * unit) + 2 ^ s) * 2 ^ 54 := by
        have e1 : (2 * x) * 2 ^ 54 = 2 * (m * unit * 2 ^ 54) + 2 * (m * unit) := by
          rw [mul_assoc, hx]; ring
        have e2 : (2 * (m * unit) + 2 ^ s) * 2 ^ 54 =
            2 * (m * unit * 2 ^ 54) + 2 * (2 ^ 53 * 2 ^ s) := by ring
        rw [e1, e2]
        omega
      exact Nat.lt_of_mul_lt_mul_right h2
    rw [hi] at hsmall hxge ⊢
    have hj1 : j ≤ i := by
      have h1 : 2 * j * 2 ^ s < (2 * i + 2) * 2 ^ s := by
        calc 2 * j * 2 ^ s = 2 * (j * 2 ^ s) := by ring
          _ ≤ 2 * x + 2 ^ s := hup'
          _ < 2 * (i * 2 ^ s) + 2 ^ s + 2 ^ s := by omega
          _ = (2 * i + 2) * 2 ^ s := by ring
      have := Nat.lt_of_mul_lt_mul_right h1
      omega
    have hj2 : i ≤ j := by
      have h1 : 2 * i * 2 ^ s < (2 * j + 2) * 2 ^ s := by
        calc 2 * i * 2 ^ s = 2 * (i * 2 ^ s) := by ring
          _ ≤ 2 * x := by omega
          _ ≤ 2 * (j * 2 ^ s) + 2 ^ s := hlo'
          _ < (2 * j + 2) * 2 ^ s := by
            have : 0 < 2 ^ s := by positivity
            nlinarith
      have := Nat.lt_of_mul_lt_mul_right h1
      omega
    have : j = i := le_antisymm hj1 hj2
    rw [this]

theorem fifth_ratio : (fifth : ℚ) = (2 ^ 54 + 1) / (5 * 2 ^ 54) * unit := by
  have h : ((5 * fifth * 2 ^ 54 : Nat) : ℚ) = ((unit * (2 ^ 54 + 1) : Nat) : ℚ) := by
    rw [five_fifth]
  push_cast at h
  field_simp
  linarith

theorem ceil_div_unit (w m : Nat) (h1 : m * unit < w) (h2 : w ≤ (m + 1) * unit) :
    (w + (unit - 1)) / unit = m + 1 := by
  have hU := unit_pos
  apply Nat.div_eq_of_lt_le
  · calc (m + 1) * unit = m * unit + unit := by ring
      _ ≤ w + (unit - 1) := by omega
  · calc w + (unit - 1) < (m + 1) * unit + unit := by omega
      _ = (m + 1 + 1) * unit := by ring

theorem ceil_div_unit_exact (m : Nat) : (m * unit + (unit - 1)) / unit = m := by
  have hU := unit_pos
  apply Nat.div_eq_of_lt_le
  · omega
  · calc m * unit + (unit - 1) < m * unit + unit := by omega
      _ = (m + 1) * unit := by ring

/-- The two roundings of `n/100 * 0.2` stay strictly between the two integers
around `n/500` when `n` is not a multiple of 500. -/
theorem price_between (n m v w : Nat) (hn : n < 10 ^ 15) (h1 : 500 * m + 1 ≤ n)
    (h2 : n ≤ 500 * m + 499)
    (r1 : |(v : ℚ) / unit - (n : ℚ) / 100| ≤ (n : ℚ) / 100 / 2 ^ 53)
    (r2 : |(w : ℚ) / unit - ((v * fifth : Nat) : ℚ) / ((unit * unit : Nat) : ℚ)| ≤
      ((v * fifth : Nat) : ℚ) / ((unit * unit : Nat) : ℚ) / 2 ^ 53) :
    m * unit < w ∧ w < (m + 1) * unit := by
  have hU : (0 : ℚ) < (unit : ℚ) := by exact_mod_cast unit_pos
  have e : ((v * fifth : Nat) : ℚ) / ((unit * unit : Nat) : ℚ) =
      (v : ℚ) / unit * ((2 ^ 54 + 1) / (5 * 2 ^ 54)) := by
    push_cast
    rw [fifth_ratio]
    field_simp
    ring
  rw [e] at r2
  generalize (v : ℚ) / unit = x at r1 r2
  have hy : (w : ℚ) = (w : ℚ) / unit * unit := by field_simp
  generalize (w : ℚ) / unit = y at r2 hy
  rw [abs_le] at r1 r2
  obtain ⟨r1a, r1b⟩ := r1
  obtain ⟨r2a, r2b⟩ := r2
  have hn' : (n : ℚ) < 10 ^ 15 := by exact_mod_cast hn
  have h1' : (500 * m + 1 : ℚ) ≤ n := by exact_mod_cast h1
  have h2' : (n : ℚ) ≤ 500 * m + 499 := by exact_mod_cast h2
  have lo : (m : ℚ) < y := by linarith
  have hi : y < (m : ℚ) + 1 := by linarith
  constructor
  · have : ((m * unit : Nat) : ℚ) < (w : ℚ) := by
      push_cast
      rw [hy]
      exact mul_lt_mul_of_pos_right lo hU
    exact_mod_cast this
  · have : (w : ℚ) < (((m + 1) * unit : Nat) : ℚ) := by
      push_cast
      rw [hy]
      exact mul_lt_mul_of_pos_right hi hU
    exact_mod_cast this

theorem fifth_le_unit : fifth ≤ unit := by decide!

theorem unit_le_five_fifth : unit ≤ 5 * fifth := by decide!

/-- The value rule 5 computes for a price of `n` hundredths, `n < 10^15`: the
double `ceil(n/500)`. -/
theorem price_value (n : Nat) (hn : n < 10 ^ 15) :
    Ceil (F64.mul (F64.fin false (roundUnits n 100)) c0_2) =
      F64.fin false ((n + 499) / 500 * unit) := by
  have hU := unit_pos
  have hUU : 0 < unit * unit := Nat.mul_pos hU hU
  have hv := roundUnits_le n 100 (by norm_num)
  have hfit : roundUnits n 100 * fifth < unit * unit * 2 ^ 200 := by
    have h1 : 100 * roundUnits n 100 ≤ 100 * (2 ^ 50 * unit) := by
      have : 2 * (n * unit) + 100 ≤ 100 * (2 ^ 50 * unit) := by
        have h3 : n * unit ≤ 10 ^ 15 * unit := Nat.mul_le_mul_right _ (le_of_lt hn)
        have h4 : 100 ≤ 100 * unit := Nat.le_mul_of_pos_right _ hU
        omega
      omega
    have h2 : roundUnits n 100 ≤ 2 ^ 50 * unit := Nat.le_of_mul_le_mul_left h1 (by norm_num)
    calc roundUnits n 100 * fifth ≤ 2 ^ 50 * unit * unit :=
          Nat.mul_le_mul h2 fifth_le_unit
      _ = unit * unit * 2 ^ 50 := by ring
      _ < unit * unit * 2 ^ 200 :=
          Nat.mul_lt_mul_of_pos_left (Nat.pow_lt_pow_right (by norm_num) (by norm_num)) hUU
  rw [c0_2_eq]
  simp only [F64.mul, bne_self_eq_false]
  rw [roundF64_fin false _ _ hUU hfit]
  simp only [Ceil]
  congr 2
  by_cases h500 : 500 ∣ n
  · obtain ⟨m, rfl⟩ := h500
    have hm : m < 2 ^ 50 := by
      norm_num at hn ⊢
      omega
    have hv2 : roundUnits (500 * m) 100 = 5 * m * unit := by
      rw [unit_eq]
      apply roundUnits_exact _ _ _ _ (by norm_num)
      · norm_num at hm ⊢
        omega
      · rw [unit_eq]
        ring
    rw [hv2, round_five_times_fifth m hm, ceil_div_unit_exact]
    omega
  · have hpos : 1 ≤ n := by
      rcases Nat.eq_zero_or_pos n with h0 | h0
      · exact absurd (h0 ▸ dvd_zero 500) h500
      · exact h0
    have hUbig : 100 * 2 ^ 52 ≤ unit := le_trans (by norm_num) unit_ge
    have hnorm : 100 * 2 ^ 52 ≤ n * unit := le_trans hUbig (Nat.le_mul_of_pos_left _ hpos)
    have r1 := roundUnits_rel n 100 (by norm_num) hnorm
    have hUq : (0 : ℚ) < (unit : ℚ) := by exact_mod_cast hU
    -- the first rounding is at least `unit / 200`
    have hvlow : unit ≤ 200 * roundUnits n 100 := by
      have h1 := (abs_le.1 r1).1
      have hn' : (1 : ℚ) ≤ n := by exact_mod_cast hpos
      have h2 : (1 : ℚ) / 200 ≤ (roundUnits n 100 : ℚ) / unit := by
        push_cast at h1
        have h3 : (n : ℚ) / 100 / 2 ^ 53 ≤ (n : ℚ) / 200 := by linarith
        linarith
      rw [div_le_div_iff₀ (by norm_num) hUq] at h2
      have h4 : ((unit : Nat) : ℚ) ≤ ((200 * roundUnits n 100 : Nat) : ℚ) := by
        push_cast
        linarith
      exact_mod_cast h4
    have hnorm2 : unit * unit * 2 ^ 52 ≤ roundUnits n 100 * fifth * unit := by
      have h5 : unit * unit ≤ 1000 * (roundUnits n 100 * fifth) := by
        calc unit * unit ≤ (200 * roundUnits n 100) * (5 * fifth) :=
              Nat.mul_le_mul hvlow unit_le_five_fifth
          _ = 1000 * (roundUnits n 100 * fifth) := by ring
      have h6 : 1000 * 2 ^ 52 ≤ unit := le_trans (by norm_num) unit_ge
      have h7 : 1000 * (unit * unit * 2 ^ 52) ≤ 1000 * (roundUnits n 100 * fifth * unit) := by
        calc 1000 * (unit * unit * 2 ^ 52) = unit * unit * (1000 * 2 ^ 52) := by ring
          _ ≤ unit * unit * unit := Nat.mul_le_mul_left _ h6
          _ ≤ 1000 * (roundUnits n 100 * fifth) * unit := Nat.mul_le_mul_right _ h5
          _ = _ := by ring
      exact Nat.le_of_mul_le_mul_left h7 (by norm_num)
    have r2 := roundUnits_rel (roundUnits n 100 * fifth) (unit * unit) hUU hnorm2
    have hb := price_between n (n / 500) (roundUnits n 100)
      (roundUnits (roundUnits n 100 * fifth) (unit * unit)) hn (by omega) (by omega) r1 r2
    rw [ceil_div_unit _ (n / 500) hb.1 (le_of_lt hb.2)]
    omega

theorem itemBonus_currency (arch : Arch) (item : Item) (n : Nat)
    (hd : len (TrimSpace item.ShortDesc) % 3 = 0)
    (h : currencyCents (bytes item.Price) = some n) (hn : n < 10 ^ 15) :
    itemBonus arch item = ((n + 499) / 500 : Nat) := by
  have hn2 : n < 100 * 2 ^ 200 := by
    have : (10 : Nat) ^ 15 ≤ 100 * 2 ^ 200 := by norm_num
    omega
  apply itemBonus_of_nat arch item _ hd
  · rw [ParseFloat_currency_fin _ n h hn2]
    exact price_value n hn
  · norm_num at hn ⊢
    omega

/-! ## Lemmas: sums of item contributions -/

theorem rule5Step_eq_itemBonus (arch : Arch) (points : Int) (item : Item) :
    rule5Step arch points item =
      if len (TrimSpace item.ShortDesc) % 3 = 0 then addInt points (itemBonus arch item)
      else points := by
  unfold rule5Step itemBonus
  by_cases h : len (TrimSpace item.ShortDesc) % 3 = 0 <;> simp [h]

theorem ceil_fifth (n : Nat) : ⌈(n : ℚ) / 100 * (2 / 10)⌉ = (((n + 499) / 500 : Nat) : Int) := by
  rw [Int.ceil_eq_iff]
  have h1 : 500 * ((n + 499) / 500) ≤ n + 499 := Nat.mul_div_le _ _
  have h2 : n + 499 < 500 * ((n + 499) / 500) + 500 := by
    have := Nat.lt_mul_div_succ (n + 499) (show 0 < 500 by norm_num)
    omega
  generalize (n + 499) / 500 = k at h1 h2
  have h1' : (500 * k : ℚ) ≤ n + 499 := by exact_mod_cast h1
  have h2' : (n : ℚ) + 499 < 500 * k + 500 := by exact_mod_cast h2
  have h3 : (n : ℚ) ≤ 500 * k := by
    have : n ≤ 500 * k := by omega
    exact_mod_cast this
  have h4 : (500 * k : ℚ) < n + 500 := by
    have : 500 * k < n + 500 := by omega
    exact_mod_cast this
  push_cast
  constructor <;> linarith

theorem trimSpace_subset (cs : List Char) : ∀ c ∈ trimSpaceChars cs, c ∈ cs := by
  intro c hc
  unfold trimSpaceChars at hc
  rw [List.mem_reverse] at hc
  have h1 := (List.dropWhile_sublist isSpace).subset hc
  rw [List.mem_reverse] at h1
  exact (List.dropWhile_sublist isSpace).subset h1

theorem roundUnits_zero : roundUnits 0 100 = 0 := by
  have := roundUnits_exact 0 100 0 0 (by norm_num) (by norm_num) (by simp)
  simpa using this

theorem itemBonus_syntax_zero (arch : Arch) (item : Item)
    (h : (ParseFloat item.Price).2 = some NumError.ErrSyntax) : itemBonus arch item = 0 := by
  unfold itemBonus
  split
  · rw [ParseFloat_syntax_zero _ h]
    have hv := price_value 0 (by norm_num)
    rw [roundUnits_zero] at hv
    rw [hv]
    have := toInt_fin_nat arch 0 (by norm_num)
    simpa using this
  · rfl

theorem itemBonus_bounds (arch : Arch) (item : Item) (n : Nat)
    (h : currencyCents (bytes item.Price) = some n) (hn : n < 10 ^ 15) :
    0 ≤ itemBonus arch item ∧ itemBonus arch item ≤ 2 * 10 ^ 12 := by
  by_cases hd : len (TrimSpace item.ShortDesc) % 3 = 0
  · rw [itemBonus_currency arch item n hd h hn]
    have : (n + 499) / 500 ≤ 2 * 10 ^ 12 := by
      norm_num at hn ⊢
      omega
    exact ⟨Int.ofNat_nonneg _, by exact_mod_cast this⟩
  · rw [itemBonus_of_skip arch item hd]
    norm_num

theorem itemBonus_sum_bounds (arch : Arch) (items : List Item)
    (h : ∀ item ∈ items, ∃ n, currencyCents (bytes item.Price) = some n ∧ n < 10 ^ 15) :
    0 ≤ (items.map (itemBonus arch)).sum ∧
      (items.map (itemBonus arch)).sum ≤ 2 * 10 ^ 12 * (items.length : Int) := by
  induction items with
  | nil => simp
  | cons it rest ih =>
    obtain ⟨n, h1, h2⟩ := h it (List.mem_cons_self _ _)
    obtain ⟨b1, b2⟩ := itemBonus_bounds arch it n h1 h2
    obtain ⟨i1, i2⟩ := ih (fun x hx => h x (List.mem_cons_of_mem _ hx))
    simp only [List.map_cons, List.sum_cons, List.length_cons]
    push_cast
    constructor <;> linarith

theorem totalBonus_bounds (t : String) : 0 ≤ totalBonus t ∧ totalBonus t ≤ 75 := by
  unfold totalBonus totalBonusOf
  constructor <;> split_ifs <;> norm_num

theorem dateBonus_bounds (d : String) : 0 ≤ dateBonus d ∧ dateBonus d ≤ 6 := by
  unfold dateBonus
  constructor <;> split_ifs <;> norm_num

theorem timeBonus_bounds (t : String) : 0 ≤ timeBonus t ∧ timeBonus t ≤ 10 := by
  unfold timeBonus
  constructor <;> split_ifs <;> norm_num

/-! ## Lemmas: the store and the paths -/

theorem Store.get_put_same (db : Store) (id : String) (r : Receipt) :
    (db.put id r).get id = some r := by
  simp [Store.get, Store.put, List.lookup]

theorem lookup_filter_other (db : Store) (id other : String) (h : other ≠ id) :
    (db.filter (fun e => e.1 != other)).lookup id = db.lookup id := by
  induction db with
  | nil => rfl
  | cons e rest ih =>
    obtain ⟨k, v⟩ := e
    by_cases hk : k = other
    · subst hk
      have hk2 : (id == k) = false := by simpa using (Ne.symm h)
      simp [List.filter, List.lookup_cons, hk2, ih]
    · have hne : (k != other) = true := by simpa using hk
      simp only [List.filter, hne, List.lookup_cons, ih]

theorem Store.get_put_other (db : Store) (id other : String) (r : Receipt) (h : other ≠ id) :
    (db.put other r).get id = db.get id := by
  unfold Store.get Store.put
  have h1 : (id == other) = false := by simpa using (Ne.symm h)
  rw [List.lookup_cons, h1]
  exact lookup_filter_other db id other h

theorem TrimPrefix_append (pre s : String) : TrimPrefix (pre ++ s) pre = s := by
  unfold TrimPrefix
  have h : pre.data.isPrefixOf (pre ++ s).data = true := by
    rw [String.data_append, List.isPrefixOf_iff_prefix]
    exact List.prefix_append _ _
  rw [if_pos h]
  simp [String.data_append]

theorem TrimSuffix_append (s suf : String) : TrimSuffix (s ++ suf) suf = s := by
  unfold TrimSuffix
  have h : suf.data.isSuffixOf (s ++ suf).data = true := by
    rw [String.data_append, List.isSuffixOf_iff_suffix]
    exact List.suffix_append _ _
  rw [if_pos h]
  simp [String.data_append]

theorem extract_pointsPath (id : String) :
    TrimSuffix (TrimPrefix (pointsPath id) "/receipts/") "/points" = id := by
  unfold pointsPath
  rw [String.append_assoc, TrimPrefix_append, TrimSuffix_append]

/-! ## Lemmas: the handlers -/

theorem GetPoints_of_get (arch : Arch) (srv : Server) (id : String) (r : Receipt)
    (h : srv.receiptDB.get id = some r) :
    GetPoints arch srv (pointsPath id) = (srv, Response.points (calculatePoints arch r)) := by
  unfold GetPoints
  simp only [extract_pointsPath, h]

theorem serve_keeps (arch : Arch) (uuid : Nat → String) (id : String) (r : Receipt) (base : Nat)
    (hfresh : ∀ k, base < k → uuid k ≠ id) (s : Server) (req : Request)
    (hget : s.receiptDB.get id = some r) (hcount : base < s.issued) :
    (serve arch uuid s req).1.receiptDB.get id = some r ∧ base < (serve arch uuid s req).1.issued := by
  cases req with
  | process decoded =>
    cases decoded with
    | error err => exact ⟨hget, hcount⟩
    | ok receipt =>
      simp only [serve, ProcessReceipt]
      refine ⟨?_, by omega⟩
      rw [Store.get_put_other _ _ _ _ (hfresh _ hcount)]
      exact hget
  | getPoints urlPath =>
    have : (serve arch uuid s (Request.getPoints urlPath)).1 = s := by
      simp only [serve, GetPoints]
      split <;> rfl
    rw [this]
    exact ⟨hget, hcount⟩

theorem serveAll_keeps (arch : Arch) (uuid : Nat → String) (id : String) (r : Receipt)
    (base : Nat) (hfresh : ∀ k, base < k → uuid k ≠ id) (reqs : List Request) (s : Server)
    (hget : s.receiptDB.get id = some r) (hcount : base < s.issued) :
    (serveAll arch uuid s reqs).receiptDB.get id = some r := by
  induction reqs generalizing s with
  | nil => exact hget
  | cons req rest ih =>
    obtain ⟨h1, h2⟩ := serve_keeps arch uuid id r base hfresh s req hget hcount
    exact ih _ h1 h2

theorem ceil_mul_unit_eq (k : Nat) : (k + (unit - 1)) / unit * unit = k ↔ unit ∣ k := by
  constructor
  · intro h
    exact Dvd.intro_left _ h
  · rintro ⟨m, rfl⟩
    rw [mul_comm unit m, ceil_div_unit_exact]

theorem totalBonusOf_fin_neg (k : Nat) :
    totalBonusOf (F64.fin true k) =
      (if unit ∣ k then 50 else 0) + (if quarter ∣ k then 25 else 0) := by
  unfold totalBonusOf
  rw [c0_25_eq]
  have hq : quarter ≠ 0 := Nat.pos_iff_ne_zero.1 quarter_pos
  simp only [Floor, Mod, hq, if_false, F64.eq, c0]
  congr 1
  · by_cases hd : unit ∣ k
    · have : (k + (unit - 1)) / unit * unit = k := (ceil_mul_unit_eq k).2 hd
      simp [hd, this]
    · have : (k + (unit - 1)) / unit * unit ≠ k := fun e => hd ((ceil_mul_unit_eq k).1 e)
      have hk : k ≠ 0 := fun e => hd (e ▸ dvd_zero _)
      simp [hd, hk, Ne.symm this]
  · by_cases hd : quarter ∣ k
    · simp [hd, Nat.mod_eq_zero_of_dvd hd]
    · have : k % quarter ≠ 0 := fun e => hd (Nat.dvd_of_mod_eq_zero e)
      simp [hd, this]

theorem totalBonusOf_inf (s : Bool) : totalBonusOf (F64.inf s) = 50 := by
  unfold totalBonusOf
  rw [c0_25_eq]
  cases s <;> simp [Floor, Mod, F64.eq, c0]

theorem totalBonusOf_nan : totalBonusOf F64.nan = 0 := by
  unfold totalBonusOf
  rw [c0_25_eq]
  simp [Floor, Mod, F64.eq, c0]

theorem totalBonusOf_finite (s : Bool) (k : Nat) :
    totalBonusOf (F64.fin s k) = 0 ∨ totalBonusOf (F64.fin s k) = 25 ∨
      totalBonusOf (F64.fin s k) = 75 := by
  have h : totalBonusOf (F64.fin s k) =
      (if unit ∣ k then 50 else 0) + (if quarter ∣ k then 25 else 0) := by
    cases s
    · exact totalBonusOf_fin k
    · exact totalBonusOf_fin_neg k
  rw [h]
  by_cases hu : unit ∣ k
  · have hq : quarter ∣ k := by
      rw [unit_eq_quarter] at hu
      exact dvd_trans (Dvd.intro_left _ rfl) hu
    simp [hu, hq]
  · by_cases hq : quarter ∣ k <;> simp [hu, hq]

theorem rule5_of_skip (arch : Arch) (points : Int) (items : List Item)
    (h : ∀ item ∈ items, len (TrimSpace item.ShortDesc) % 3 ≠ 0) :
    rule5 arch points items = points := by
  induction items generalizing points with
  | nil => rfl
  | cons it rest ih =>
    have h1 : rule5Step arch points it = points := by
      rw [rule5Step_eq_itemBonus, if_neg (h it (List.mem_cons_self _ _))]
    have h2 : rule5 arch points (it :: rest) = rule5 arch (rule5Step arch points it) rest := by
      simp [rule5]
    rw [h2, h1]
    exact ih points (fun x hx => h x (List.mem_cons_of_mem _ hx))

theorem itemBonus_sum_of_skip (arch : Arch) (items : List Item)
    (h : ∀ item ∈ items, len (TrimSpace item.ShortDesc) % 3 ≠ 0) :
    (items.map (itemBonus arch)).sum = 0 := by
  induction items with
  | nil => rfl
  | cons it rest ih =>
    rw [List.map_cons, List.sum_cons, itemBonus_of_skip arch it (h it (List.mem_cons_self _ _)),
      ih (fun x hx => h x (List.mem_cons_of_mem _ hx))]
    rfl

theorem exactSum_perm (arch : Arch) (r : Receipt) (items : List Item)
    (h : List.Perm items r.Items) :
    exactSum arch { r with Items := items } = exactSum arch r := by
  have hl : items.length = r.Items.length := h.length_eq
  have hs : (items.map (itemBonus arch)).sum = (r.Items.map (itemBonus arch)).sum :=
    (h.map (itemBonus arch)).sum_eq
  simp only [exactSum, hl, hs]

/-! ## The statements of the specification, one by one -/

/-- C1 (the code at the failing inputs, in general): when the purchase date
does not parse, `time.Parse` returns the zero time, whose day is 1, so rule 6
adds 6: the score is that of the same receipt with the even-day date
"2022-01-02", plus 6 (in `int` arithmetic). -/
theorem C1_unparseable_date_adds_six (arch : Arch) (r : Receipt)
    (h : (ParseDate r.PurchaseDate).2 = true) :
    calculatePoints arch r =
      addInt (calculatePoints arch { r with PurchaseDate := "2022-01-02" }) 6 := by
  have hz : dateBonus r.PurchaseDate = 6 := by
    unfold dateBonus
    rw [ParseDate_of_error _ h]
    decide
  have he : dateBonus "2022-01-02" = 0 := by decide!
  have hs : exactSum arch r = exactSum arch { r with PurchaseDate := "2022-01-02" } + 6 := by
    simp only [exactSum, hz, he]
    ring
  rw [calculatePoints_eq_wrap, calculatePoints_eq_wrap, addInt_wrap64, hs]

/-- C1 (witness): the dates "", "abc" and "2022-02-30" do not parse, and a
receipt that scores 0 with the date "2022-01-02" scores 6 with "abc". -/
theorem C1_unparseable_date_adds_six_witness :
    (ParseDate "").2 = true ∧ (ParseDate "abc").2 = true ∧ (ParseDate "2022-02-30").2 = true ∧
      calculatePoints amd64 ⟨"", "2022-01-02", "", [], "1.26"⟩ = 0 ∧
      calculatePoints amd64 ⟨"", "abc", "", [], "1.26"⟩ =
        addInt (calculatePoints amd64 ⟨"", "2022-01-02", "", [], "1.26"⟩) 6 ∧
      calculatePoints amd64 ⟨"", "abc", "", [], "1.26"⟩ = 6 :=
  ⟨by decide!, by decide!, by decide!, by decide!,
    C1_unparseable_date_adds_six amd64 ⟨"", "abc", "", [], "1.26"⟩ (by decide!), by decide!⟩

/-- C2 (the code at the failing inputs, in general): when the total is not
well-formed, `ParseFloat` returns 0, which is a round amount and a multiple of
0.25, so rules 2 and 3 add 50 and 25: the score is that of the same receipt
with the total "1.26", plus 75 (in `int` arithmetic). -/
theorem C2_unparseable_total_adds_75 (arch : Arch) (r : Receipt)
    (h : (ParseFloat r.Total).2 = some NumError.ErrSyntax) :
    calculatePoints arch r = addInt (calculatePoints arch { r with Total := "1.26" }) 75 := by
  have hz : totalBonus r.Total = 75 := by
    unfold totalBonus
    rw [ParseFloat_syntax_zero _ h]
    decide!
  have he : totalBonus "1.26" = 0 := by decide!
  have hs : exactSum arch r = exactSum arch { r with Total := "1.26" } + 75 := by
    simp only [exactSum, hz, he]
    ring
  rw [calculatePoints_eq_wrap, calculatePoints_eq_wrap, addInt_wrap64, hs]

/-- C2 (witness): the totals "" and "abc" are not well-formed, and a receipt
that scores 0 with the total "1.26" scores 75 with "abc". -/
theorem C2_unparseable_total_adds_75_witness :
    (ParseFloat "").2 = some NumError.ErrSyntax ∧
      (ParseFloat "abc").2 = some NumError.ErrSyntax ∧
      calculatePoints amd64 ⟨"", "2022-01-02", "", [], "1.26"⟩ = 0 ∧
      calculatePoints amd64 ⟨"", "2022-01-02", "", [], "abc"⟩ =
        addInt (calculatePoints amd64 ⟨"", "2022-01-02", "", [], "1.26"⟩) 75 ∧
      calculatePoints amd64 ⟨"", "2022-01-02", "", [], "abc"⟩ = 75 :=
  ⟨by decide!, by decide!, by decide!,
    C2_unparseable_total_adds_75 amd64 ⟨"", "2022-01-02", "", [], "abc"⟩ (by decide!),
    by decide!⟩

/-- C3 (counterexample): on the scenario receipt `calculatePoints` does not
return 28. -/
theorem C3_scenario_not_28 : calculatePoints amd64 scenarioReceipt ≠ 28 := by decide!

/-- C3 (amended): on the scenario receipt of the specification (total "1.25")
`calculatePoints` returns 53: 6 for the retailer, 25 for the quarter-multiple
total, 10 for the five items, 3 + 3 for the two items whose trimmed description
length is a multiple of 3, 6 for the odd day and 0 for the time. -/
theorem C3_scenario_53 (arch : Arch) : calculatePoints arch scenarioReceipt = 53 := by
  rw [calculatePoints_eq_wrap]
  have e1 : itemBonus arch ⟨"Mountain Dew 12PK", "6.49"⟩ = 0 :=
    itemBonus_of_skip arch _ (by decide!)
  have e2 : itemBonus arch ⟨"Emils Cheese Pizza", "12.25"⟩ = (3 : Nat) :=
    itemBonus_of_nat arch _ 3 (by decide!) (by decide!) (by decide!)
  have e3 : itemBonus arch ⟨"Knorr Creamy Chicken", "1.26"⟩ = 0 :=
    itemBonus_of_skip arch _ (by decide!)
  have e4 : itemBonus arch ⟨"Doritos Nacho Cheese", "3.35"⟩ = 0 :=
    itemBonus_of_skip arch _ (by decide!)
  have e5 : itemBonus arch ⟨"   Klarbrunn 12-PK 12 FL OZ  ", "12.00"⟩ = (3 : Nat) :=
    itemBonus_of_nat arch _ 3 (by decide!) (by decide!) (by decide!)
  have t1 : len "Target" = 6 := by decide!
  have t2 : totalBonus "1.25" = 25 := by decide!
  have t3 : dateBonus "2022-01-01" = 6 := by decide!
  have t4 : timeBonus "13:01" = 0 := by decide!
  simp only [exactSum, scenarioReceipt, List.map, List.sum_cons, List.sum_nil, e1, e2, e3, e4, e5,
    t1, t2, t3, t4, List.length]
  decide

/-- C4 (counterexample): with the retailer "é" (one character, two bytes) the
score exceeds the score with the empty retailer by 2, not by 1. -/
theorem C4_non_ascii_retailer_counts_bytes :
    calculatePoints amd64 ⟨"é", "2022-01-02", "", [], "1.26"⟩ -
        calculatePoints amd64 ⟨"", "2022-01-02", "", [], "1.26"⟩ = 2 ∧
      "é".length = 1 ∧
      calculatePoints amd64 ⟨"é", "2022-01-02", "", [], "1.26"⟩ -
        calculatePoints amd64 ⟨"", "2022-01-02", "", [], "1.26"⟩ ≠ (("é".length : Nat) : Int) := by
  decide!

/-- C4 (amended): rule 1 adds the number of bytes of the retailer string (Go
`len`): the score with retailer `s` is the score with the empty retailer plus
`len s` in `int` arithmetic, and the difference is exactly `len s` whenever that
addition does not overflow; for an ASCII string the number of bytes is the
number of characters. -/
theorem C4_retailer_adds_byte_length (arch : Arch) (r : Receipt) (s : String) :
    calculatePoints arch { r with RetName := s } =
        addInt (calculatePoints arch { r with RetName := "" }) (len s) ∧
      (calculatePoints arch { r with RetName := "" } + len s < 2 ^ 63 →
        calculatePoints arch { r with RetName := s } -
          calculatePoints arch { r with RetName := "" } = len s) ∧
      ((∀ c ∈ s.data, c.toNat < 128) → len s = s.length) := by
  have h0 : len "" = 0 := by decide
  have hs : exactSum arch { r with RetName := s } =
      exactSum arch { r with RetName := "" } + len s := by
    simp only [exactSum, h0]
    push_cast
    ring
  have hadd : calculatePoints arch { r with RetName := s } =
      addInt (calculatePoints arch { r with RetName := "" }) (len s) := by
    rw [calculatePoints_eq_wrap, calculatePoints_eq_wrap, addInt_wrap64, hs]
  refine ⟨hadd, ?_, ?_⟩
  · intro hfit
    rw [hadd]
    have hr := wrap64_range (exactSum arch { r with RetName := "" })
    rw [← calculatePoints_eq_wrap] at hr
    unfold addInt
    have hlen : (0 : Int) ≤ (len s : Int) := Int.ofNat_nonneg _
    have hlow : -(2 ^ 63) ≤ calculatePoints arch { r with RetName := "" } + (len s : Int) := by
      have := hr.1
      linarith
    rw [wrap64_of_fits _ hlow hfit]
    ring
  · intro hascii
    exact bytesOfChars_length_ascii s.data hascii

/-- C4 (witness): the retailer "M&M Corner Market" has 17 ASCII characters and
adds 17. -/
theorem C4_retailer_adds_byte_length_witness :
    calculatePoints amd64 ⟨"M&M Corner Market", "2022-01-02", "", [], "1.26"⟩ -
        calculatePoints amd64 ⟨"", "2022-01-02", "", [], "1.26"⟩ = len "M&M Corner Market" ∧
      len "M&M Corner Market" = "M&M Corner Market".length ∧
      len "M&M Corner Market" = 17 :=
  ⟨(C4_retailer_adds_byte_length amd64 ⟨"", "2022-01-02", "", [], "1.26"⟩
      "M&M Corner Market").2.1 (by decide!),
    (C4_retailer_adds_byte_length amd64 ⟨"", "2022-01-02", "", [], "1.26"⟩
      "M&M Corner Market").2.2 (by decide!),
    by decide!⟩

/-- C5 (counterexample): the total "4503599627370496.26" is a currency amount
with `cc = 26`, yet the nearest double is the integer 4503599627370496 and rules
2 and 3 add 75; for "140737488355328.26" the nearest double ends in .25 and
rule 3 adds 25. -/
theorem C5_large_total_loses_cents :
    currencyCents (bytes "4503599627370496.26") = some 450359962737049626 ∧
      totalRules 0 "4503599627370496.26" = 75 ∧
      calculatePoints amd64 ⟨"", "2022-01-02", "", [], "4503599627370496.26"⟩ = 75 ∧
      currencyCents (bytes "140737488355328.26") = some 14073748835532826 ∧
      totalRules 0 "140737488355328.26" = 25 := by
  decide!

/-- C5 (amended): for a total written `D.cc` (digits, a point, two digits) with
`D` below `10^13`, rules 2 and 3 add 50 exactly when `cc = 00` and 25 exactly
when `cc` is 00, 25, 50 or 75: together 75 for a round amount, 25 for another
multiple of 0.25 and nothing otherwise (`n` is the amount in hundredths). -/
theorem C5_total_rules_of_currency (points : Int) (total : String) (n : Nat)
    (h : currencyCents (bytes total) = some n) (hn : n < 10 ^ 15) :
    totalRules points total =
        (if n % 100 = 0 then addInt (addInt points 50) 25
         else if n % 100 = 25 ∨ n % 100 = 50 ∨ n % 100 = 75 then addInt points 25
         else points) ∧
      totalBonus total =
        (if n % 100 = 0 then 50 else 0) +
          (if n % 100 = 0 ∨ n % 100 = 25 ∨ n % 100 = 50 ∨ n % 100 = 75 then 25 else 0) := by
  have hb := totalBonus_currency total n h hn
  have hq : n % 25 = 0 ↔ (n % 100 = 0 ∨ n % 100 = 25 ∨ n % 100 = 50 ∨ n % 100 = 75) := by
    omega
  constructor
  · rw [totalRules_eq, hb]
    by_cases h0 : n % 100 = 0
    · have : n % 25 = 0 := by omega
      simp [h0, this]
    · by_cases h1 : n % 100 = 25 ∨ n % 100 = 50 ∨ n % 100 = 75
      · have : n % 25 = 0 := by omega
        simp [h0, h1, this]
      · have : ¬ n % 25 = 0 := by omega
        simp [h0, h1, this]
  · rw [hb]
    by_cases h25 : n % 25 = 0
    · simp only [h25, if_true, hq.1 h25]
    · simp only [h25, if_false, mt hq.2 h25]

/-- C5 (witness): "35.35" adds nothing, "1.25" adds 25 and "9.00" adds 75. -/
theorem C5_total_rules_of_currency_witness :
    currencyCents (bytes "35.35") = some 3535 ∧ totalRules 0 "35.35" = 0 ∧
      currencyCents (bytes "1.25") = some 125 ∧ totalRules 0 "1.25" = addInt 0 25 ∧
      currencyCents (bytes "9.00") = some 900 ∧
      totalRules 0 "9.00" = addInt (addInt 0 50) 25 :=
  ⟨by decide!, (C5_total_rules_of_currency 0 "35.35" 3535 (by decide!) (by decide!)).1,
    by decide!, (C5_total_rules_of_currency 0 "1.25" 125 (by decide!) (by decide!)).1,
    by decide!, (C5_total_rules_of_currency 0 "9.00" 900 (by decide!) (by decide!)).1⟩

/-- C6 (counterexample): "aéb" has three characters (four bytes) and the item
adds nothing; "é1" has two characters (three bytes) and the item adds 2; the
price "5.0000000000000000001" parses to the double 5 and the item adds 1, while
the ceiling of the price times 0.2 is 2. -/
theorem C6_character_length_and_exact_ceiling_fail :
    ((TrimSpace "aéb").length = 3 ∧ rule5Step amd64 0 ⟨"aéb", "5.05"⟩ = 0) ∧
      ((TrimSpace "é1").length = 2 ∧ rule5Step amd64 0 ⟨"é1", "5.05"⟩ = 2) ∧
      (rule5Step amd64 0 ⟨"abc", "5.0000000000000000001"⟩ = 1 ∧
        ⌈(50000000000000000001 : ℚ) / 10000000000000000000 * (2 / 10)⌉ = 2) := by
  refine ⟨by decide!, by decide!, by decide!, ?_⟩
  rw [Int.ceil_eq_iff]
  norm_num

/-- C6 (amended): with the length of the trimmed description counted in bytes
(Go `len`; the number of characters when the description is ASCII), an item
whose length is a multiple of 3 and whose price is written `D.cc` with `D` below
`10^13` adds exactly the ceiling of the price times 0.2 (`n` is the price in
hundredths); an item whose length is not a multiple of 3 adds nothing, whatever
its price. -/
theorem C6_rule5_of_currency (arch : Arch) (points : Int) (item : Item) (n : Nat)
    (h : currencyCents (bytes item.Price) = some n) (hn : n < 10 ^ 15) :
    rule5Step arch points item =
        (if len (TrimSpace item.ShortDesc) % 3 = 0 then
          addInt points ⌈(n : ℚ) / 100 * (2 / 10)⌉
        else points) ∧
      (∀ other : Item, len (TrimSpace other.ShortDesc) % 3 ≠ 0 →
        rule5Step arch points other = points) ∧
      ((∀ c ∈ item.ShortDesc.data, c.toNat < 128) →
        len (TrimSpace item.ShortDesc) = (TrimSpace item.ShortDesc).length) := by
  refine ⟨?_, ?_, ?_⟩
  · rw [rule5Step_eq_itemBonus, ceil_fifth]
    by_cases hd : len (TrimSpace item.ShortDesc) % 3 = 0
    · rw [if_pos hd, if_pos hd, itemBonus_currency arch item n hd h hn]
    · rw [if_neg hd, if_neg hd]
  · intro other hd
    rw [rule5Step_eq_itemBonus, if_neg hd]
  · intro hascii
    apply bytesOfChars_length_ascii
    intro c hc
    exact hascii c (trimSpace_subset _ c hc)

/-- C6 (witness): a raw value of 1.01 (price "5.05") adds 2; "Emils Cheese
Pizza" at "12.25" adds 3; "Mountain Dew 12PK" (17 bytes) adds nothing. -/
theorem C6_rule5_of_currency_witness :
    currencyCents (bytes "5.05") = some 505 ∧
      rule5Step amd64 0 ⟨"abc", "5.05"⟩ = addInt 0 ⌈(505 : ℚ) / 100 * (2 / 10)⌉ ∧
      rule5Step amd64 0 ⟨"abc", "5.05"⟩ = 2 ∧
      rule5Step amd64 0 ⟨"Emils Cheese Pizza", "12.25"⟩ = 3 ∧
      rule5Step amd64 0 ⟨"Mountain Dew 12PK", "6.49"⟩ = 0 :=
  ⟨by decide!,
    (C6_rule5_of_currency amd64 0 ⟨"abc", "5.05"⟩ 505 (by decide!) (by decide!)).1,
    by decide!, by decide!, by decide!⟩

/-- C7 (the code at the failing input): for the price "1e999" `ParseFloat`
returns +Inf with a range error, not 0; the product with 0.2 and its ceiling
are +Inf, whose conversion to `int` is left to the implementation (on amd64 the
item adds `-2^63`); so the price is not treated as 0. -/
theorem C7_out_of_range_price_is_infinite :
    ParseFloat "1e999" = (F64.inf false, some NumError.ErrRange) ∧
      Ceil (F64.mul (ParseFloat "1e999").1 c0_2) = F64.inf false ∧
      rule5Step amd64 0 ⟨"", "1e999"⟩ = -(2 ^ 63) := by
  decide!

/-- C7 (the part that holds): a price that is not well-formed (a syntax error
of `ParseFloat`, as for "", "abc" and "1,50") is read as 0 and the item adds 0,
whatever its description. -/
theorem rule5Step_of_syntax_error (arch : Arch) (points : Int) (item : Item)
    (h : (ParseFloat item.Price).2 = some NumError.ErrSyntax) :
    (ParseFloat item.Price).1 = F64.fin false 0 ∧
      rule5Step arch points item =
        (if len (TrimSpace item.ShortDesc) % 3 = 0 then addInt points 0 else points) := by
  refine ⟨ParseFloat_syntax_zero _ h, ?_⟩
  rw [rule5Step_eq_itemBonus, itemBonus_syntax_zero arch item h]

/-- The prices "", "abc" and "1,50" are syntax errors and add nothing. -/
theorem rule5Step_of_syntax_error_witness :
    (ParseFloat "").2 = some NumError.ErrSyntax ∧
      (ParseFloat "abc").2 = some NumError.ErrSyntax ∧
      (ParseFloat "1,50").2 = some NumError.ErrSyntax ∧
      rule5Step amd64 7 ⟨"abc", "1,50"⟩ = addInt 7 0 :=
  ⟨by decide!, by decide!, by decide!,
    (rule5Step_of_syntax_error amd64 7 ⟨"abc", "1,50"⟩ (by decide!)).2⟩

/-- C8 (counterexample): with two items priced "46116860184273870000.00" and
"5090.00" (empty descriptions, so rule 5 adds `2^63 - 1024` and 1018, and rule 4
adds 5) the score on the even-day date "2022-01-02" is `2^63 - 1`, the largest
`int`; on the odd-day date "2022-01-01" the addition of 6 wraps around and the
score is `-2^63 + 5`, which is not the even-day score plus 6. -/
theorem C8_odd_day_wraps_at_max_int :
    calendarDate (bytes "2022-01-02") = some (2022, 1, 2) ∧
      calendarDate (bytes "2022-01-01") = some (2022, 1, 1) ∧
      calculatePoints amd64 ⟨"", "2022-01-02", "",
        [⟨"", "46116860184273870000.00"⟩, ⟨"", "5090.00"⟩], "1.26"⟩ = 2 ^ 63 - 1 ∧
      calculatePoints amd64 ⟨"", "2022-01-01", "",
        [⟨"", "46116860184273870000.00"⟩, ⟨"", "5090.00"⟩], "1.26"⟩ = -(2 ^ 63) + 5 ∧
      calculatePoints amd64 ⟨"", "2022-01-01", "",
        [⟨"", "46116860184273870000.00"⟩, ⟨"", "5090.00"⟩], "1.26"⟩ ≠
        calculatePoints amd64 ⟨"", "2022-01-02", "",
          [⟨"", "46116860184273870000.00"⟩, ⟨"", "5090.00"⟩], "1.26"⟩ + 6 := by
  decide!

/-- C8 (amended): for valid calendar dates written `YYYY-MM-DD`, rule 6 adds 6
in `int` arithmetic when the day of the month is odd and nothing when it is
even; changing only the date from an even-day valid date to an odd-day valid
date turns the score into the even-day score plus 6 in `int` arithmetic, and
raises it by exactly 6 whenever the even-day score plus 6 does not overflow
`int`. -/
theorem C8_odd_day_adds_six (arch : Arch) (r : Receipt) (dEven dOdd : String)
    (y1 m1 d1 y2 m2 d2 : Nat)
    (hE : calendarDate (bytes dEven) = some (y1, m1, d1)) (hEven : d1 % 2 = 0)
    (hO : calendarDate (bytes dOdd) = some (y2, m2, d2)) (hOdd : d2 % 2 = 1) :
    (∀ points : Int, rule6 points dOdd = addInt points 6) ∧
      (∀ points : Int, rule6 points dEven = points) ∧
      calculatePoints arch { r with PurchaseDate := dOdd } =
        addInt (calculatePoints arch { r with PurchaseDate := dEven }) 6 ∧
      (calculatePoints arch { r with PurchaseDate := dEven } + 6 < 2 ^ 63 →
        calculatePoints arch { r with PurchaseDate := dOdd } =
          calculatePoints arch { r with PurchaseDate := dEven } + 6) := by
  have bO : dateBonus dOdd = 6 := by
    rw [dateBonus_of_calendarDate dOdd y2 m2 d2 hO]
    simp [hOdd]
  have bE : dateBonus dEven = 0 := by
    rw [dateBonus_of_calendarDate dEven y1 m1 d1 hE]
    simp [hEven]
  have hs : exactSum arch { r with PurchaseDate := dOdd } =
      exactSum arch { r with PurchaseDate := dEven } + 6 := by
    simp only [exactSum, bO, bE]
    ring
  have hadd : calculatePoints arch { r with PurchaseDate := dOdd } =
      addInt (calculatePoints arch { r with PurchaseDate := dEven }) 6 := by
    rw [calculatePoints_eq_wrap, calculatePoints_eq_wrap, addInt_wrap64, hs]
  refine ⟨?_, ?_, hadd, ?_⟩
  · intro points
    rw [rule6_eq_add, bO]
    simp
  · intro points
    rw [rule6_eq_add, bE]
    simp
  · intro hfit
    rw [hadd]
    have hr := wrap64_range (exactSum arch { r with PurchaseDate := dEven })
    rw [← calculatePoints_eq_wrap] at hr
    unfold addInt
    have hlow : -(2 ^ 63) ≤ calculatePoints arch { r with PurchaseDate := dEven } + 6 := by
      have := hr.1
      linarith
    exact wrap64_of_fits _ hlow hfit

/-- C8 (witness): "2022-01-02" and "2024-02-29" are valid dates with an even
and an odd day; the scenario receipt scores 47 with the first and 53 with the
second. -/
theorem C8_odd_day_adds_six_witness :
    calendarDate (bytes "2022-01-02") = some (2022, 1, 2) ∧
      calendarDate (bytes "2024-02-29") = some (2024, 2, 29) ∧
      calculatePoints amd64 { scenarioReceipt with PurchaseDate := "2024-02-29" } =
        calculatePoints amd64 { scenarioReceipt with PurchaseDate := "2022-01-02" } + 6 ∧
      calculatePoints amd64 { scenarioReceipt with PurchaseDate := "2022-01-02" } = 47 :=
  ⟨by decide!, by decide!,
    (C8_odd_day_adds_six amd64 scenarioReceipt "2022-01-02" "2024-02-29" 2022 1 2 2024 2 29
      (by decide!) (by decide!) (by decide!) (by decide!)).2.2.2 (by decide!),
    by decide!⟩

/-- C9: rule 7 adds 10 exactly when the purchase time is a valid 24-hour
`HH:MM` time whose hour is 14 or 15, and nothing in every other case: whatever
the running total, rule 7 turns it into itself plus 10 (Go `int` addition) or
leaves it; the score is the score of the same receipt with an empty purchase
time, plus 10 in the window (Go `int` addition, the plain sum whenever it fits
in an `int`) and unchanged outside it; a time that fails to parse is outside
the window and adds nothing. -/
theorem C9_afternoon_window (arch : Arch) (r : Receipt) :
    (∀ points : Int, rule7 points r.PurchaseTime =
        if inAfternoonWindow r.PurchaseTime then addInt points 10 else points) ∧
      calculatePoints arch r =
        (if inAfternoonWindow r.PurchaseTime then
          addInt (calculatePoints arch { r with PurchaseTime := "" }) 10
        else calculatePoints arch { r with PurchaseTime := "" }) ∧
      ((ParseClock r.PurchaseTime).2 = true →
        inAfternoonWindow r.PurchaseTime = false ∧
          ∀ points : Int, rule7 points r.PurchaseTime = points) ∧
      (inAfternoonWindow r.PurchaseTime = true →
        calculatePoints arch { r with PurchaseTime := "" } + 10 < 2 ^ 63 →
        calculatePoints arch r = calculatePoints arch { r with PurchaseTime := "" } + 10) := by
  have hb := timeBonus_eq r.PurchaseTime
  have h0 : timeBonus "" = 0 := by decide!
  have hrule : ∀ points : Int, rule7 points r.PurchaseTime =
      if inAfternoonWindow r.PurchaseTime then addInt points 10 else points := by
    intro points
    rw [rule7_eq_add, hb]
    by_cases hw : inAfternoonWindow r.PurchaseTime = true <;> simp [hw]
  have hscore : calculatePoints arch r =
      (if inAfternoonWindow r.PurchaseTime then
        addInt (calculatePoints arch { r with PurchaseTime := "" }) 10
      else calculatePoints arch { r with PurchaseTime := "" }) := by
    by_cases hw : inAfternoonWindow r.PurchaseTime = true
    · have hs : exactSum arch r = exactSum arch { r with PurchaseTime := "" } + 10 := by
        simp only [exactSum, hb, h0, hw, if_true]
        ring
      rw [if_pos hw, calculatePoints_eq_wrap, calculatePoints_eq_wrap, addInt_wrap64, hs]
    · have hs : exactSum arch r = exactSum arch { r with PurchaseTime := "" } := by
        simp only [exactSum, hb, h0, hw]
        simp
      rw [if_neg hw, calculatePoints_eq_wrap, calculatePoints_eq_wrap, hs]
  refine ⟨hrule, hscore, ?_, ?_⟩
  rotate_left
  · intro hw hfit
    rw [hscore, if_pos hw]
    have hr := wrap64_range (exactSum arch { r with PurchaseTime := "" })
    rw [← calculatePoints_eq_wrap] at hr
    unfold addInt
    have hlow : -(2 ^ 63) ≤ calculatePoints arch { r with PurchaseTime := "" } + 10 := by
      have := hr.1
      linarith
    exact wrap64_of_fits _ hlow hfit
  · intro herr
    have hz : timeBonus r.PurchaseTime = 0 := by
      unfold timeBonus
      rw [ParseClock_of_error _ herr]
      decide
    have hw : inAfternoonWindow r.PurchaseTime = false := by
      rw [hb] at hz
      by_cases hw : inAfternoonWindow r.PurchaseTime = true
      · simp [hw] at hz
      · simpa using hw
    refine ⟨hw, ?_⟩
    intro points
    rw [hrule, hw]
    simp

/-- C9 (witness): "14:00" and "15:59" are in the window, "16:00", "13:59",
"9:30" and "2:30pm" are not; with "14:00" the scenario receipt scores 63. -/
theorem C9_afternoon_window_witness :
    inAfternoonWindow "14:00" = true ∧ inAfternoonWindow "15:59" = true ∧
      inAfternoonWindow "16:00" = false ∧ inAfternoonWindow "13:59" = false ∧
      inAfternoonWindow "9:30" = false ∧ inAfternoonWindow "2:30pm" = false ∧
      (ParseClock "2:30pm").2 = true ∧
      (∀ points : Int, rule7 points "2:30pm" = points) ∧
      calculatePoints amd64 { scenarioReceipt with PurchaseTime := "14:00" } = 63 :=
  ⟨by decide!, by decide!, by decide!, by decide!, by decide!, by decide!, by decide!,
    ((C9_afternoon_window amd64 { scenarioReceipt with PurchaseTime := "2:30pm" }).2.2.1
      (by decide!)).2,
    by decide!⟩

/-- C10 (counterexample): a receipt with a valid date, time and total and two
items priced "40000000000000000000.00" scores a negative number: each item adds
8000000000000000000 and the sum wraps around in 64 bits; with one item priced
"50000000000000000000.00" the product does not fit in an `int` and on amd64 the
score is negative as well. -/
theorem C10_large_prices_wrap_negative :
    calendarDate (bytes "2022-01-02") = some (2022, 1, 2) ∧
      clockHHMM (bytes "13:01") = some (13, 1) ∧
      currencyCents (bytes "1.26") = some 126 ∧
      currencyCents (bytes "40000000000000000000.00") = some 4000000000000000000000 ∧
      rule5Step amd64 0 ⟨"abc", "40000000000000000000.00"⟩ = 8000000000000000000 ∧
      calculatePoints amd64 ⟨"Target", "2022-01-02", "13:01",
        [⟨"abc", "40000000000000000000.00"⟩, ⟨"abc", "40000000000000000000.00"⟩], "1.26"⟩ =
          -2446744073709551605 ∧
      calculatePoints amd64 ⟨"Target", "2022-01-02", "13:01",
        [⟨"abc", "40000000000000000000.00"⟩, ⟨"abc", "40000000000000000000.00"⟩], "1.26"⟩ < 0 ∧
      calculatePoints amd64 ⟨"Target", "2022-01-02", "13:01",
        [⟨"abc", "50000000000000000000.00"⟩], "1.26"⟩ < 0 := by
  decide!

/-- C10 (amended): for every receipt whose item prices are currency amounts
`D.cc` with `D` below `10^13`, with fewer than a million items and a retailer
name shorter than `2^62` bytes, `calculatePoints` returns an integer greater
than or equal to 0 (and no addition overflows: the score is the plain sum of
what the rules add). -/
theorem C10_score_nonneg (arch : Arch) (r : Receipt)
    (hprices : ∀ item ∈ r.Items, ∃ n, currencyCents (bytes item.Price) = some n ∧ n < 10 ^ 15)
    (hitems : r.Items.length < 10 ^ 6) (hname : len r.RetName < 2 ^ 62) :
    0 ≤ calculatePoints arch r ∧ calculatePoints arch r = exactSum arch r := by
  obtain ⟨s1, s2⟩ := itemBonus_sum_bounds arch r.Items hprices
  obtain ⟨t1, t2⟩ := totalBonus_bounds r.Total
  obtain ⟨d1, d2⟩ := dateBonus_bounds r.PurchaseDate
  obtain ⟨c1, c2⟩ := timeBonus_bounds r.PurchaseTime
  have hl : (r.Items.length : Int) < 10 ^ 6 := by exact_mod_cast hitems
  have hl0 : (0 : Int) ≤ (r.Items.length : Int) := Int.ofNat_nonneg _
  have hn : ((len r.RetName : Nat) : Int) < 2 ^ 62 := by exact_mod_cast hname
  have hn0 : (0 : Int) ≤ ((len r.RetName : Nat) : Int) := Int.ofNat_nonneg _
  have hpair : ((r.Items.length / 2 : Nat) : Int) * 5 ≤ 5 * 10 ^ 6 := by
    have : r.Items.length / 2 * 5 ≤ 5 * 10 ^ 6 := by omega
    exact_mod_cast this
  have hpair0 : (0 : Int) ≤ ((r.Items.length / 2 : Nat) : Int) * 5 := by positivity
  have hw : wrap64 (((r.Items.length / 2 : Nat) : Int) * 5) =
      ((r.Items.length / 2 : Nat) : Int) * 5 :=
    wrap64_of_fits _ (by linarith) (by linarith)
  have hsum0 : 0 ≤ exactSum arch r := by
    unfold exactSum
    rw [hw]
    linarith
  have hsum1 : exactSum arch r < 2 ^ 63 := by
    unfold exactSum
    rw [hw]
    linarith
  rw [calculatePoints_eq_wrap, wrap64_of_fits _ (by linarith) hsum1]
  exact ⟨hsum0, rfl⟩

/-- C10 (witness): the scenario receipt meets the bounds and scores 53. -/
theorem C10_score_nonneg_witness :
    0 ≤ calculatePoints amd64 scenarioReceipt ∧
      calculatePoints amd64 scenarioReceipt = exactSum amd64 scenarioReceipt :=
  C10_score_nonneg amd64 scenarioReceipt (by decide!) (by decide!) (by decide!)

/-- C11 (counterexample): the description "é1" has two characters (three
bytes), so its character length is not a multiple of 3; yet the receipt with
this one item, priced "5.05", scores 2 where the same receipt without items
scores 0, so the item contributes 2 and not `5 * (1 / 2) = 0`; with two such
items the items contribute 9 and not `5 * (2 / 2) = 5`. -/
theorem C11_character_length_items_add_more :
    ((TrimSpace "é1").length = 2 ∧ (TrimSpace "é1").length % 3 ≠ 0 ∧
        len (TrimSpace "é1") = 3) ∧
      calculatePoints amd64 ⟨"", "2022-01-02", "", [], "1.26"⟩ = 0 ∧
      (calculatePoints amd64 ⟨"", "2022-01-02", "", [⟨"é1", "5.05"⟩], "1.26"⟩ = 2 ∧
        calculatePoints amd64 ⟨"", "2022-01-02", "", [⟨"é1", "5.05"⟩], "1.26"⟩ -
            calculatePoints amd64 ⟨"", "2022-01-02", "", [], "1.26"⟩ ≠
          5 * (([⟨"é1", "5.05"⟩] : List Item).length / 2 : Nat)) ∧
      (calculatePoints amd64 ⟨"", "2022-01-02", "",
          [⟨"é1", "5.05"⟩, ⟨"é1", "5.05"⟩], "1.26"⟩ = 9 ∧
        calculatePoints amd64 ⟨"", "2022-01-02", "",
            [⟨"é1", "5.05"⟩, ⟨"é1", "5.05"⟩], "1.26"⟩ -
            calculatePoints amd64 ⟨"", "2022-01-02", "", [], "1.26"⟩ ≠
          5 * (([⟨"é1", "5.05"⟩, ⟨"é1", "5.05"⟩] : List Item).length / 2 : Nat)) := by
  decide!

/-- C11 (amended): for a receipt with `n` items none of which has a trimmed
short description whose length in bytes (Go `len`; the number of characters
when the description is ASCII) is a multiple of 3, the items contribute
`5 * (n / 2)` points: rules 4 and 5 turn every running total into itself plus
`5 * (n / 2)` in `int` arithmetic, the score is the score of the same receipt
without items plus `5 * (n / 2)` in `int` arithmetic, and the difference of the
two scores is exactly `5 * (n / 2)` whenever that sum does not overflow `int`. -/
theorem C11_items_add_five_per_pair (arch : Arch) (r : Receipt)
    (h : ∀ item ∈ r.Items, len (TrimSpace item.ShortDesc) % 3 ≠ 0) :
    (∀ points : Int, rule5 arch (rule4 points r.Items) r.Items =
        addInt points (5 * (r.Items.length / 2 : Nat))) ∧
      calculatePoints arch r =
        addInt (calculatePoints arch { r with Items := [] }) (5 * (r.Items.length / 2 : Nat)) ∧
      (calculatePoints arch { r with Items := [] } + 5 * (r.Items.length / 2 : Nat) < 2 ^ 63 →
        calculatePoints arch r =
          calculatePoints arch { r with Items := [] } + 5 * (r.Items.length / 2 : Nat)) ∧
      (∀ item ∈ r.Items, (∀ c ∈ item.ShortDesc.data, c.toNat < 128) →
        len (TrimSpace item.ShortDesc) = (TrimSpace item.ShortDesc).length) := by
  have hascii : ∀ item ∈ r.Items, (∀ c ∈ item.ShortDesc.data, c.toNat < 128) →
      len (TrimSpace item.ShortDesc) = (TrimSpace item.ShortDesc).length := by
    intro item _ ha
    apply bytesOfChars_length_ascii
    intro c hc
    exact ha c (trimSpace_subset _ c hc)
  have hadd : calculatePoints arch r =
      addInt (calculatePoints arch { r with Items := [] }) (5 * (r.Items.length / 2 : Nat)) := by
    have h0 : wrap64 (((([] : List Item).length / 2 : Nat) : Int) * 5) = 0 := by decide
    have hs : wrap64 (exactSum arch r) =
        wrap64 (exactSum arch { r with Items := [] } + 5 * (r.Items.length / 2 : Nat)) := by
      simp only [exactSum, itemBonus_sum_of_skip arch r.Items h, h0, List.map_nil, List.sum_nil]
      have e : ∀ a b c d x : Int, a + b + wrap64 x + 0 + c + d = (a + b + c + d) + wrap64 x := by
        intros; ring
      rw [e, wrap64_add_wrap64]
      congr 1
      ring
    rw [calculatePoints_eq_wrap, calculatePoints_eq_wrap, addInt_wrap64, hs]
  refine ⟨?_, hadd, ?_, hascii⟩
  · intro points
    rw [rule5_of_skip arch _ _ h]
    unfold rule4 addInt
    rw [wrap64_add_wrap64]
    congr 1
    ring
  · intro hfit
    rw [hadd]
    have hr := wrap64_range (exactSum arch { r with Items := [] })
    rw [← calculatePoints_eq_wrap] at hr
    unfold addInt
    have hn : (0 : Int) ≤ 5 * ((r.Items.length / 2 : Nat) : Int) := by positivity
    have hlow : -(2 ^ 63) ≤
        calculatePoints arch { r with Items := [] } + 5 * ((r.Items.length / 2 : Nat) : Int) := by
      have := hr.1
      linarith
    exact wrap64_of_fits _ hlow hfit

/-- C11 (witness): "Mountain Dew 12PK", "Knorr Creamy Chicken" and "Doritos
Nacho Cheese" have 17, 20 and 20 bytes; a receipt with four such items scores
10 more than the same receipt without items, one with five such items also 10
more, one with two or three 5 more and one with a single item the same. -/
theorem C11_items_add_five_per_pair_witness :
    calculatePoints amd64 ⟨"", "2022-01-02", "",
        [⟨"Mountain Dew 12PK", "6.49"⟩, ⟨"Knorr Creamy Chicken", "1.26"⟩,
         ⟨"Doritos Nacho Cheese", "3.35"⟩, ⟨"Mountain Dew 12PK", "6.49"⟩], "1.26"⟩ =
        calculatePoints amd64 ⟨"", "2022-01-02", "", [], "1.26"⟩ + 5 * (4 / 2 : Nat) ∧
      calculatePoints amd64 ⟨"", "2022-01-02", "",
        [⟨"Mountain Dew 12PK", "6.49"⟩, ⟨"Knorr Creamy Chicken", "1.26"⟩,
         ⟨"Doritos Nacho Cheese", "3.35"⟩, ⟨"Mountain Dew 12PK", "6.49"⟩,
         ⟨"Knorr Creamy Chicken", "1.26"⟩], "1.26"⟩ =
        calculatePoints amd64 ⟨"", "2022-01-02", "", [], "1.26"⟩ + 5 * (5 / 2 : Nat) ∧
      (∀ points : Int,
        rule5 amd64
          (rule4 points [⟨"Mountain Dew 12PK", "6.49"⟩, ⟨"Knorr Creamy Chicken", "1.26"⟩,
            ⟨"Doritos Nacho Cheese", "3.35"⟩])
          [⟨"Mountain Dew 12PK", "6.49"⟩, ⟨"Knorr Creamy Chicken", "1.26"⟩,
            ⟨"Doritos Nacho Cheese", "3.35"⟩] = addInt points (5 * (3 / 2 : Nat))) ∧
      calculatePoints amd64 ⟨"", "2022-01-02", "", [], "1.26"⟩ = 0 ∧
      calculatePoints amd64 ⟨"", "2022-01-02", "", [⟨"Mountain Dew 12PK", "6.49"⟩], "1.26"⟩ = 0 ∧
      calculatePoints amd64 ⟨"", "2022-01-02", "",
        [⟨"Mountain Dew 12PK", "6.49"⟩, ⟨"Knorr Creamy Chicken", "1.26"⟩], "1.26"⟩ = 5 ∧
      calculatePoints amd64 ⟨"", "2022-01-02", "",
        [⟨"Mountain Dew 12PK", "6.49"⟩, ⟨"Knorr Creamy Chicken", "1.26"⟩,
         ⟨"Doritos Nacho Cheese", "3.35"⟩], "1.26"⟩ = 5 ∧
      calculatePoints amd64 ⟨"", "2022-01-02", "",
        [⟨"Mountain Dew 12PK", "6.49"⟩, ⟨"Knorr Creamy Chicken", "1.26"⟩,
         ⟨"Doritos Nacho Cheese", "3.35"⟩, ⟨"Mountain Dew 12PK", "6.49"⟩], "1.26"⟩ = 10 :=
  ⟨(C11_items_add_five_per_pair amd64
      ⟨"", "2022-01-02", "",
        [⟨"Mountain Dew 12PK", "6.49"⟩, ⟨"Knorr Creamy Chicken", "1.26"⟩,
         ⟨"Doritos Nacho Cheese", "3.35"⟩, ⟨"Mountain Dew 12PK", "6.49"⟩], "1.26"⟩
      (by decide!)).2.2.1 (by decide!),
    (C11_items_add_five_per_pair amd64
      ⟨"", "2022-01-02", "",
        [⟨"Mountain Dew 12PK", "6.49"⟩, ⟨"Knorr Creamy Chicken", "1.26"⟩,
         ⟨"Doritos Nacho Cheese", "3.35"⟩, ⟨"Mountain Dew 12PK", "6.49"⟩,
         ⟨"Knorr Creamy Chicken", "1.26"⟩], "1.26"⟩
      (by decide!)).2.2.1 (by decide!),
    (C11_items_add_five_per_pair amd64
      ⟨"", "2022-01-02", "",
        [⟨"Mountain Dew 12PK", "6.49"⟩, ⟨"Knorr Creamy Chicken", "1.26"⟩,
         ⟨"Doritos Nacho Cheese", "3.35"⟩], "1.26"⟩
      (by decide!)).1,
    by decide!, by decide!, by decide!, by decide!, by decide!⟩

/-- C12: when `ProcessReceipt` stores the receipt `r` under the identifier
`id`, it answers with `id`; a following `GetPoints` request for the path
"/receipts/" ++ id ++ "/points" extracts exactly `id`, finds `r` and answers
with status 200 and the points `calculatePoints r`; and so it does after any
further requests, submissions included, as long as the identifiers generated
later differ from `id`. -/
theorem C12_points_of_stored_receipt (arch : Arch) (uuid : Nat → String) (srv : Server)
    (r : Receipt) (id : String) (reqs : List Request) (hid : uuid srv.issued = id)
    (hfresh : ∀ k, srv.issued < k → uuid k ≠ id) :
    (ProcessReceipt uuid srv (Except.ok r)).2 = Response.receiptID id ∧
      TrimSuffix (TrimPrefix ("/receipts/" ++ id ++ "/points") "/receipts/") "/points" = id ∧
      (serveAll arch uuid (ProcessReceipt uuid srv (Except.ok r)).1 reqs).receiptDB.get id =
        some r ∧
      (GetPoints arch (serveAll arch uuid (ProcessReceipt uuid srv (Except.ok r)).1 reqs)
          ("/receipts/" ++ id ++ "/points")).2 = Response.points (calculatePoints arch r) ∧
      (GetPoints arch (serveAll arch uuid (ProcessReceipt uuid srv (Except.ok r)).1 reqs)
          ("/receipts/" ++ id ++ "/points")).2.status = 200 ∧
      (GetPoints arch (ProcessReceipt uuid srv (Except.ok r)).1
          ("/receipts/" ++ id ++ "/points")).2 = Response.points (calculatePoints arch r) := by
  have hstored : (ProcessReceipt uuid srv (Except.ok r)).1.receiptDB.get id = some r := by
    simp only [ProcessReceipt, hid]
    exact Store.get_put_same _ _ _
  have hcount : srv.issued < (ProcessReceipt uuid srv (Except.ok r)).1.issued := by
    simp only [ProcessReceipt]
    omega
  have hlater := serveAll_keeps arch uuid id r srv.issued hfresh reqs _ hstored hcount
  have hget := GetPoints_of_get arch _ id r hlater
  have hget0 := GetPoints_of_get arch _ id r hstored
  unfold pointsPath at hget hget0
  refine ⟨?_, extract_pointsPath id, hlater, ?_, ?_, ?_⟩
  · simp only [ProcessReceipt, hid]
  · rw [hget]
  · rw [hget]
    rfl
  · rw [hget0]

/-- C12 (witness): the scenario receipt is stored under the first identifier;
after another submission, a lookup and a failed submission, the points request
for that identifier answers with its points. -/
theorem C12_points_of_stored_receipt_witness :
    (GetPoints amd64
        (serveAll amd64 (fun k => if k = 0 then "7fb1377b-b223-49d9-a31a-5a02701dd310" else "x")
          (ProcessReceipt (fun k => if k = 0 then "7fb1377b-b223-49d9-a31a-5a02701dd310" else "x")
            Server.initial (Except.ok scenarioReceipt)).1
          [Request.process (Except.ok ⟨"", "", "", [], ""⟩), Request.getPoints "/receipts/x/points",
           Request.process (Except.error "EOF")])
        ("/receipts/" ++ "7fb1377b-b223-49d9-a31a-5a02701dd310" ++ "/points")).2 =
      Response.points (calculatePoints amd64 scenarioReceipt) :=
  (C12_points_of_stored_receipt amd64
    (fun k => if k = 0 then "7fb1377b-b223-49d9-a31a-5a02701dd310" else "x") Server.initial
    scenarioReceipt "7fb1377b-b223-49d9-a31a-5a02701dd310"
    [Request.process (Except.ok ⟨"", "", "", [], ""⟩), Request.getPoints "/receipts/x/points",
     Request.process (Except.error "EOF")]
    (by decide)
    (by
      intro k hk
      have hk0 : k ≠ 0 := by
        intro h0
        rw [h0] at hk
        exact absurd hk (by decide)
      simp only [hk0, if_false]
      decide)).2.2.2.1

/-- C13: when the identifier extracted from the request path (strip the prefix
"/receipts/", then the suffix "/points") is not a key of the store, `GetPoints`
answers with `http.Error`, message "Receipt not found" and status 404, computes
no points and leaves the state as it was; on the empty store every request is
answered so. -/
theorem C13_unknown_identifier_not_found (arch : Arch) (srv : Server) (urlPath : String)
    (h : srv.receiptDB.get (TrimSuffix (TrimPrefix urlPath "/receipts/") "/points") = none) :
    GetPoints arch srv urlPath = (srv, Response.httpError "Receipt not found" 404) ∧
      (GetPoints arch srv urlPath).2.status = 404 ∧
      (∀ points : Int, (GetPoints arch srv urlPath).2 ≠ Response.points points) ∧
      (∀ (other : String) (issued : Nat),
        GetPoints arch ⟨[], issued⟩ other =
          (⟨[], issued⟩, Response.httpError "Receipt not found" 404)) := by
  have hg : GetPoints arch srv urlPath = (srv, Response.httpError "Receipt not found" 404) := by
    unfold GetPoints
    simp only [h]
  refine ⟨hg, ?_, ?_, ?_⟩
  · rw [hg]
    rfl
  · intro points
    rw [hg]
    simp
  · intro other issued
    unfold GetPoints
    simp [Store.get]

/-- C13 (witness): on the initial state the path of an identifier never issued
is answered with 404. -/
theorem C13_unknown_identifier_not_found_witness :
    GetPoints amd64 Server.initial "/receipts/7fb1377b-b223-49d9-a31a-5a02701dd310/points" =
      (Server.initial, Response.httpError "Receipt not found" 404) :=
  (C13_unknown_identifier_not_found amd64 Server.initial
    "/receipts/7fb1377b-b223-49d9-a31a-5a02701dd310/points" (by decide!)).1

/-- C14: when decoding the request body fails with the message `err`,
`ProcessReceipt` answers with `http.Error`, message `err` and status 400; it
generates no identifier (the count of generated identifiers is unchanged), its
response holds none, and the store is exactly as it was. -/
theorem C14_decode_error_bad_request (uuid : Nat → String) (srv : Server) (err : String) :
    ProcessReceipt uuid srv (Except.error err) = (srv, Response.httpError err 400) ∧
      (ProcessReceipt uuid srv (Except.error err)).2.status = 400 ∧
      (ProcessReceipt uuid srv (Except.error err)).1.issued = srv.issued ∧
      (ProcessReceipt uuid srv (Except.error err)).1.receiptDB = srv.receiptDB ∧
      (∀ id : String, (ProcessReceipt uuid srv (Except.error err)).2 ≠ Response.receiptID id) :=
  ⟨rfl, rfl, rfl, rfl, fun _ h => by simp [ProcessReceipt] at h⟩

/-- C15 (the code at the failing input): for the total "Inf" `ParseFloat`
returns +Inf without an error; `math.Floor(+Inf)` is +Inf, so rule 2 adds 50,
and `math.Mod(+Inf, 0.25)` is NaN, so rule 3 adds nothing: the two rules add
exactly 50. The same for a numeral out of range such as "1e999". -/
theorem C15_infinite_total_adds_50 :
    ParseFloat "Inf" = (F64.inf false, none) ∧
      totalRules 0 "Inf" = 50 ∧
      calculatePoints amd64 ⟨"", "2022-01-02", "", [], "Inf"⟩ = 50 ∧
      calculatePoints amd64 ⟨"", "2022-01-02", "", [], "1.26"⟩ = 0 ∧
      totalRules 0 "1e999" = 50 := by
  decide!

/-- C15 (what holds): rules 2 and 3 together add 0, 25, 50 or 75, and 50 only
when the total parses to an infinity; for every total that parses to a finite
number, and for every total with a syntax error, they add 0, 25 or 75. -/
theorem totalBonus_values (t : String) :
    (totalBonus t = 0 ∨ totalBonus t = 25 ∨ totalBonus t = 50 ∨ totalBonus t = 75) ∧
      (totalBonus t = 50 ↔ ∃ s, (ParseFloat t).1 = F64.inf s) := by
  unfold totalBonus
  cases hv : (ParseFloat t).1 with
  | nan =>
    rw [totalBonusOf_nan]
    exact ⟨Or.inl rfl, by simp⟩
  | inf s =>
    rw [totalBonusOf_inf]
    exact ⟨Or.inr (Or.inr (Or.inl rfl)), by simp⟩
  | fin s k =>
    rcases totalBonusOf_finite s k with h | h | h <;> rw [h] <;> simp

/-- C16: `calculatePoints` does not depend on the order of the items: a receipt
with a permutation of the items of `r` has the score of `r`. -/
theorem C16_score_of_permuted_items (arch : Arch) (r : Receipt) (items : List Item)
    (h : List.Perm items r.Items) :
    calculatePoints arch { r with Items := items } = calculatePoints arch r := by
  rw [calculatePoints_eq_wrap, calculatePoints_eq_wrap, exactSum_perm arch r items h]

/-- C16 (witness): the scenario receipt with its items in reverse order scores
53 as well. -/
theorem C16_score_of_permuted_items_witness :
    calculatePoints amd64 { scenarioReceipt with Items := scenarioReceipt.Items.reverse } =
        calculatePoints amd64 scenarioReceipt ∧
      calculatePoints amd64 { scenarioReceipt with Items := scenarioReceipt.Items.reverse } = 53 :=
  ⟨C16_score_of_permuted_items amd64 scenarioReceipt scenarioReceipt.Items.reverse
      (List.reverse_perm _), by decide!⟩

end ReceiptProcessor
